import Mathlib

/-!
Verification of the file-catalog and selective-synchronization engine of the
rag-gdrive repository.

The catalog utilities (`src/utils/file-catalog.ts`) and the ingestion
orchestrator (`generateBotVectorData`) are embedded shallowly: the persisted
catalog file is explicit state of type `CatalogDisk`, every operation that the
TypeScript code performs through `fs` is a pure state transformer on that
state, and the external collaborators (content hasher, uuid source, document
loader, splitter, vector store) are function parameters.  Timestamps are
passed in as an opaque `now : String`.
-/

namespace RagGdrive

/-- One catalog entry, mirroring the `FileMetadata` interface of
`src/types/file-catalog.ts`.  Optional TypeScript fields become `Option`;
`sourceLocation` and `processingStatus` keep their string-literal values. -/
structure FileMetadata where
  id : String
  name : String
  mimeType : String
  size : Nat
  lastModified : String
  sourceLocation : String
  driveId : Option String := none
  contentHash : Option String := none
  processingStatus : String
  errorMessage : Option String := none
  processedAt : Option String := none
  chunkCount : Nat
  chunkIds : List String
deriving Repr, DecidableEq

/-- The catalog aggregate: `lastUpdated` plus the id-keyed record map.  The
JavaScript object `catalog.files` is modelled as an insertion-ordered
association list, so `Object.keys`/`Object.values` order is the list order. -/
structure FileCatalog where
  lastUpdated : String
  files : List (String × FileMetadata)
deriving Repr, DecidableEq

/-- One entry of the legacy array-shaped catalog (`{filename, type, size,
documentCount}`); `documentCount` may be missing. -/
structure LegacyEntry where
  filename : String
  type : String
  size : Nat
  documentCount : Option Nat := none
deriving Repr, DecidableEq

/-- The persisted catalog file: missing, unreadable/unparseable, legacy
array shape, or the current object shape. -/
inductive CatalogDisk where
  | absent
  | corrupt
  | legacy (entries : List LegacyEntry)
  | current (cat : FileCatalog)
deriving Repr, DecidableEq

/-- One candidate file of the watched directory.  `statSize = none` models a
throwing `fs.statSync`, `content = none` a throwing `fs.readFileSync`. -/
structure DirEntry where
  name : String
  statSize : Option Nat
  content : Option String
deriving Repr, DecidableEq

/-- `catalog.files[k]` — first binding of key `k`. -/
def lookupKey (fs : List (String × FileMetadata)) (k : String) : Option FileMetadata :=
  match fs.find? (fun kv => kv.1 == k) with
  | some kv => some kv.2
  | none => none

/-- JavaScript assignment `catalog.files[k] = v`: replace the binding in
place when the key exists, otherwise append it. -/
def setKey : List (String × FileMetadata) → String → FileMetadata → List (String × FileMetadata)
  | [], k, v => [(k, v)]
  | kv :: rest, k, v => if kv.1 == k then (k, v) :: rest else kv :: setKey rest k v

/-- `delete catalog.files[k]`. -/
def removeKey (fs : List (String × FileMetadata)) (k : String) : List (String × FileMetadata) :=
  fs.filter (fun kv => kv.1 != k)

/-- JavaScript truthiness of a possibly-undefined string (used for
`file.contentHash` and `driveId` guards): defined and non-empty. -/
def truthyStr : Option String → Bool
  | some s => s != ""
  | none => false

/-- Partial update object passed to `updateFileMetadata` (a
`Partial<FileMetadata>`): `some` marks a property present in the object
literal.  `lastModified` is recorded for faithfulness but the merge in
`updateFileMetadata` always overwrites it with the current time. -/
structure MetaUpdates where
  id : Option String := none
  name : Option String := none
  mimeType : Option String := none
  size : Option Nat := none
  lastModified : Option String := none
  sourceLocation : Option String := none
  driveId : Option (Option String) := none
  contentHash : Option String := none
  processingStatus : Option String := none
  errorMessage : Option String := none
  processedAt : Option String := none
  chunkCount : Option Nat := none
  chunkIds : Option (List String) := none
deriving Repr, DecidableEq

/-- The spread `{...old, ...updates, lastModified: now}` of
`updateFileMetadata`. -/
def applyUpdates (now : String) (m : FileMetadata) (u : MetaUpdates) : FileMetadata where
  id := u.id.getD m.id
  name := u.name.getD m.name
  mimeType := u.mimeType.getD m.mimeType
  size := u.size.getD m.size
  lastModified := now
  sourceLocation := u.sourceLocation.getD m.sourceLocation
  driveId := u.driveId.getD m.driveId
  contentHash := match u.contentHash with
    | some s => some s
    | none => m.contentHash
  processingStatus := u.processingStatus.getD m.processingStatus
  errorMessage := match u.errorMessage with
    | some s => some s
    | none => m.errorMessage
  processedAt := match u.processedAt with
    | some s => some s
    | none => m.processedAt
  chunkCount := u.chunkCount.getD m.chunkCount
  chunkIds := u.chunkIds.getD m.chunkIds

/-- `getMimeTypeFromExtension`: extension-to-MIME lookup with the
`application/octet-stream` default. -/
def getMimeTypeFromExtension (ext : String) : String :=
  let e := ext.toLower
  if e == "pdf" then "application/pdf"
  else if e == "docx" then "application/vnd.openxmlformats-officedocument.wordprocessingml.document"
  else if e == "txt" then "text/plain"
  else if e == "md" then "text/markdown"
  else if e == "gdoc" then "application/vnd.google-apps.document"
  else if e == "html" then "text/html"
  else if e == "htm" then "text/html"
  else if e == "csv" then "text/csv"
  else if e == "json" then "application/json"
  else if e == "xml" then "application/xml"
  else "application/octet-stream"

/-- `path.extname(fileName).substring(1)`: the characters after the last dot
(empty for dotless names and leading-dot files). -/
def extAfterDot (name : String) : String :=
  match name.splitOn "." with
  | [] => ""
  | [_] => ""
  | ["", _] => ""
  | parts => parts.getLastD ""

/-- `calculateFileHash` applied to one directory entry: hash of the bytes on
a successful read, and the empty string when `fs.readFileSync` throws (the
catch block of `calculateFileHash` returns `''`). -/
def hashOfEntry (hash : String → String) (e : DirEntry) : String :=
  match e.content with
  | some c => hash c
  | none => ""

/-- Fresh empty catalog (`{lastUpdated: now, files: {}}`). -/
def emptyCatalog (now : String) : FileCatalog :=
  { lastUpdated := now, files := [] }

/-- The in-memory catalog after `saveFileCatalog` refreshed `lastUpdated`. -/
def savedCat (c : FileCatalog) (now : String) : FileCatalog :=
  { c with lastUpdated := now }

/-- `saveFileCatalog`: refresh `lastUpdated` and overwrite the persisted
file with the given in-memory catalog. -/
def saveFileCatalog (c : FileCatalog) (now : String) : CatalogDisk :=
  .current (savedCat c now)

/-- One migrated record of the legacy-array migration inside
`loadFileCatalog`: fresh id, `google-drive` provenance, `success` status,
`chunkCount = documentCount || 0` and empty `chunkIds`. -/
def migrateEntry (now : String) (id : String) (e : LegacyEntry) : String × FileMetadata :=
  (id,
    { id := id
      name := e.filename
      mimeType := getMimeTypeFromExtension e.type
      size := e.size
      lastModified := now
      sourceLocation := "google-drive"
      driveId := none
      contentHash := none
      processingStatus := "success"
      errorMessage := none
      processedAt := some now
      chunkCount := e.documentCount.getD 0
      chunkIds := [] })

/-- The `parsedData.forEach` loop of the migration, consuming one uuid per
legacy entry. -/
def migrateFiles (uuid : Nat → String) (now : String) : Nat → List LegacyEntry → List (String × FileMetadata)
  | _, [] => []
  | u, e :: rest => migrateEntry now (uuid u) e :: migrateFiles uuid now (u + 1) rest

/-- `loadFileCatalog`: empty catalog when the file is absent, legacy-array
migration (persisted before returning), pass-through of the current shape,
and — the catch block — an empty catalog when reading or parsing throws.
Returns the in-memory catalog, the resulting persisted state and the next
uuid counter. -/
def loadFileCatalog (uuid : Nat → String) (disk : CatalogDisk) (now : String) (u : Nat) :
    FileCatalog × CatalogDisk × Nat :=
  match disk with
  | .absent => (emptyCatalog now, .absent, u)
  | .corrupt => (emptyCatalog now, .corrupt, u)
  | .legacy entries =>
      let migrated : FileCatalog := { lastUpdated := now, files := migrateFiles uuid now u entries }
      (savedCat migrated now, saveFileCatalog migrated now, u + entries.length)
  | .current c => (c, .current c, u)

/-- `updateFileMetadata`: load the persisted catalog, merge the partial
update into the record at `fileId` (refreshing `lastModified`), save, and
return the merged record — or `none` (with no save) when the id is absent. -/
def updateFileMetadata (uuid : Nat → String) (disk : CatalogDisk) (now : String) (u : Nat)
    (fileId : String) (upd : MetaUpdates) : Option FileMetadata × CatalogDisk × Nat :=
  let l := loadFileCatalog uuid disk now u
  match lookupKey l.1.files fileId with
  | none => (none, l.2.1, l.2.2)
  | some m =>
      let m2 := applyUpdates now m upd
      let cat2 : FileCatalog := { l.1 with files := setKey l.1.files fileId m2 }
      (some m2, saveFileCatalog cat2 now, l.2.2)

/-- `removeFileFromCatalog`: load, delete the record at `fileId`, save;
`false` (and no save) when the id is absent. -/
def removeFileFromCatalog (uuid : Nat → String) (disk : CatalogDisk) (now : String) (u : Nat)
    (fileId : String) : Bool × CatalogDisk × Nat :=
  let l := loadFileCatalog uuid disk now u
  match lookupKey l.1.files fileId with
  | none => (false, l.2.1, l.2.2)
  | some _ =>
      let cat2 : FileCatalog := { l.1 with files := removeKey l.1.files fileId }
      (true, saveFileCatalog cat2 now, l.2.2)

/-- The dual lookup of `addFileToFileCatalog`: first by `driveId` for
google-drive sources, then by file name (with a `driveId` equality guard
when a truthy `driveId` was passed).  Returns the matched binding. -/
def addLookup (cat : FileCatalog) (fileName : String) (sourceLocation : String)
    (driveId : Option String) : Option (String × FileMetadata) :=
  let byDrive : Option (String × FileMetadata) :=
    if truthyStr driveId && (sourceLocation == "google-drive") then
      cat.files.find? (fun kv => kv.2.driveId == driveId && kv.2.sourceLocation == "google-drive")
    else none
  match byDrive with
  | some kv => some kv
  | none =>
      cat.files.find? (fun kv =>
        kv.2.name == fileName && (if truthyStr driveId then kv.2.driveId == driveId else true))

/-- `addFileToFileCatalog`: load the catalog, draw a fresh uuid, look up an
existing record via `addLookup`; update the found record in place (name,
size, `pending`, `driveId`) or create a fresh `pending` record with
`chunkCount = 0`, `chunkIds = []`.  File paths are modelled by bare file
names, so `path.basename` is the identity. -/
def addFileToFileCatalog (uuid : Nat → String) (disk : CatalogDisk) (now : String) (u : Nat)
    (filePath : String) (mimeType : String) (size : Nat) (sourceLocation : String)
    (driveId : Option String) : FileMetadata × CatalogDisk × Nat :=
  let l := loadFileCatalog uuid disk now u
  let cat := l.1
  let fileId := uuid l.2.2
  let u2 := l.2.2 + 1
  let fileName := filePath
  match addLookup cat fileName sourceLocation driveId with
  | some kv =>
      let f2 : FileMetadata :=
        { kv.2 with name := fileName, size := size, lastModified := now,
                    processingStatus := "pending", driveId := driveId }
      let cat2 : FileCatalog := { cat with files := setKey cat.files kv.1 f2 }
      (f2, saveFileCatalog cat2 now, u2)
  | none =>
      let fm : FileMetadata :=
        { id := fileId
          name := fileName
          mimeType := mimeType
          size := size
          lastModified := now
          sourceLocation := sourceLocation
          driveId := driveId
          contentHash := none
          processingStatus := "pending"
          errorMessage := none
          processedAt := none
          chunkCount := 0
          chunkIds := [] }
      let cat2 : FileCatalog := { cat with files := setKey cat.files fileId fm }
      (fm, saveFileCatalog cat2 now, u2)

/-- External calls the sync pass performs, in order: vector-store deletions
and additions, `updateFileMetadata` invocations, and `addFileToFileCatalog`
invocations of the new-file path. -/
inductive Event where
  | vsDelete (ids : List String)
  | vsAdd (chunks : List String)
  | catUpdate (fileId : String) (upd : MetaUpdates)
  | addFile (name : String)
deriving Repr, DecidableEq

/-- The partial update written for a MODIFIED file during change detection. -/
def procUpd (size : Nat) (chash : String) (now : String) : MetaUpdates :=
  { size := some size, contentHash := some chash,
    processingStatus := some "pending", lastModified := some now }

/-- The `{contentHash}` update written right after a new file is added. -/
def hashUpd (chash : String) : MetaUpdates :=
  { contentHash := some chash }

/-- The update written when rename detection relabels a record. -/
def renameUpd (newName : String) : MetaUpdates :=
  { name := some newName, processingStatus := some "pending" }

/-- The modification test of `checkForFileChanges`: stored hash differs from
the computed one (a missing stored hash differs from every string), or the
size differs, or the record is in `error` state. -/
def changedB (f : FileMetadata) (size : Nat) (chash : String) : Bool :=
  f.contentHash != some chash || f.size != size || f.processingStatus == "error"

/-- The result record of `checkForFileChanges`. -/
structure CheckResult where
  filesToProcess : List String
  filesToSkip : List String
  deletedFileIds : List String
deriving Repr, DecidableEq

/-- Loop state of `checkForFileChanges`: the persisted catalog, the uuid
counter, the three result lists, and the call trace.  The in-memory catalog
the function loaded is NOT part of the state: the code never mutates it. -/
structure ScanState where
  disk : CatalogDisk
  u : Nat
  proc : List String
  skip : List String
  deleted : List String
  trace : List Event
deriving Repr

/-- One iteration of the per-file scan loop of `checkForFileChanges`:
a throwing `statSync` lands in the catch block (process anyway); a record
matched by name in the stale in-memory catalog is classified by `changedB`
and either updated through `updateFileMetadata` or skipped; an unmatched
file goes through `addFileToFileCatalog` plus a `contentHash` update. -/
def scanStep (hash : String → String) (uuid : Nat → String) (cat : FileCatalog) (now : String)
    (st : ScanState) (e : DirEntry) : ScanState :=
  match e.statSize with
  | none => { st with proc := st.proc ++ [e.name] }
  | some size =>
    let chash := hashOfEntry hash e
    match cat.files.find? (fun kv => kv.2.name == e.name) with
    | some kv =>
        let f := kv.2
        let deleted2 := st.deleted.erase f.id
        if changedB f size chash then
          let r := updateFileMetadata uuid st.disk now st.u f.id (procUpd size chash now)
          { disk := r.2.1, u := r.2.2, proc := st.proc ++ [e.name], skip := st.skip,
            deleted := deleted2, trace := st.trace ++ [.catUpdate f.id (procUpd size chash now)] }
        else
          { st with deleted := deleted2, skip := st.skip ++ [e.name] }
    | none =>
        let mt := getMimeTypeFromExtension (extAfterDot e.name)
        let a := addFileToFileCatalog uuid st.disk now st.u e.name mt size "manual-upload" none
        let r := updateFileMetadata uuid a.2.1 now a.2.2 a.1.id (hashUpd chash)
        { disk := r.2.1, u := r.2.2, proc := st.proc ++ [e.name], skip := st.skip,
          deleted := st.deleted,
          trace := st.trace ++ [.addFile e.name, .catUpdate a.1.id (hashUpd chash)] }

/-- The filter selecting `potentiallyRenamedFiles`: unmatched ids whose
stale record is a manual upload with a truthy `contentHash`. -/
def renameCandidateB (cat : FileCatalog) (id : String) : Bool :=
  match lookupKey cat.files id with
  | some f => f.sourceLocation == "manual-upload" && truthyStr f.contentHash
  | none => false

/-- The observed file the rename pass pairs with a candidate record: the
first directory file whose recomputed content hash equals the record's
stored hash. -/
def renameTarget (hash : String → String) (files : List DirEntry) (f : FileMetadata) :
    Option DirEntry :=
  files.find? (fun e => f.contentHash == some (hashOfEntry hash e))

/-- One iteration of the rename-detection loop: relabel the stale record to
the matched file's name, set it `pending`, drop its id from the deleted
list, and add the new name to the must-process list if absent. -/
def renameStep (hash : String → String) (uuid : Nat → String) (cat : FileCatalog)
    (files : List DirEntry) (now : String) (st : ScanState) (fileId : String) : ScanState :=
  match lookupKey cat.files fileId with
  | none => st
  | some oldFile =>
    match renameTarget hash files oldFile with
    | none => st
    | some e =>
        let r := updateFileMetadata uuid st.disk now st.u fileId (renameUpd e.name)
        { disk := r.2.1, u := r.2.2,
          proc := if st.proc.contains e.name then st.proc else st.proc ++ [e.name],
          skip := st.skip, deleted := st.deleted.erase fileId,
          trace := st.trace ++ [.catUpdate fileId (renameUpd e.name)] }

/-- Everything `checkForFileChanges` does before its final
`saveFileCatalog(catalog)`: load, scan loop, rename loop. -/
structure CheckCore where
  result : CheckResult
  preSaveDisk : CatalogDisk
  u : Nat
  loadedCat : FileCatalog
  trace : List Event
deriving Repr

/-- `checkForFileChanges` up to (but excluding) its final save: the catalog
is loaded once, every directory entry passing the supported-type filter is
scanned, then rename detection runs over the remaining unmatched ids. -/
def checkForFileChangesCore (hash : String → String) (uuid : Nat → String)
    (dir : List DirEntry) (filt : String → Bool) (disk : CatalogDisk) (now : String) (u : Nat) :
    CheckCore :=
  let l := loadFileCatalog uuid disk now u
  let cat := l.1
  let files := dir.filter (fun e => filt e.name)
  let st0 : ScanState :=
    { disk := l.2.1, u := l.2.2, proc := [], skip := [],
      deleted := cat.files.map Prod.fst, trace := [] }
  let st1 := files.foldl (scanStep hash uuid cat now) st0
  let potentially := st1.deleted.filter (renameCandidateB cat)
  let st2 := potentially.foldl (renameStep hash uuid cat files now) st1
  { result := { filesToProcess := st2.proc, filesToSkip := st2.skip, deletedFileIds := st2.deleted }
    preSaveDisk := st2.disk
    u := st2.u
    loadedCat := cat
    trace := st2.trace }

/-- Return value and side effects of `checkForFileChanges`. -/
structure CheckOut where
  result : CheckResult
  disk : CatalogDisk
  u : Nat
  trace : List Event
deriving Repr

/-- `checkForFileChanges`: the core pass followed by the final
`saveFileCatalog(catalog)` — which writes the catalog object loaded at entry
(never mutated since), overwriting every save the loop iterations made. -/
def checkForFileChanges (hash : String → String) (uuid : Nat → String)
    (dir : List DirEntry) (filt : String → Bool) (disk : CatalogDisk) (now : String) (u : Nat) :
    CheckOut :=
  let c := checkForFileChangesCore hash uuid dir filt disk now u
  { result := c.result, disk := saveFileCatalog c.loadedCat now, u := c.u, trace := c.trace }

/-- State of the deleted-files pass of `generateBotVectorData`. -/
structure ReconState where
  chunkIdsToDelete : List String
  disk : CatalogDisk
  u : Nat
deriving Repr

/-- One iteration of the deleted-files loop: collect the record's
`chunkIds` from the pre-sync snapshot catalog (empty and absent contribute
nothing), then `removeFileFromCatalog`. -/
def reconcileStep (uuid : Nat → String) (snapshot : FileCatalog) (now : String)
    (st : ReconState) (fileId : String) : ReconState :=
  let ids : List String :=
    match lookupKey snapshot.files fileId with
    | some m => if m.chunkIds.length > 0 then m.chunkIds else []
    | none => []
  let r := removeFileFromCatalog uuid st.disk now st.u fileId
  { chunkIdsToDelete := st.chunkIdsToDelete ++ ids, disk := r.2.1, u := r.2.2 }

/-- The deleted-files pass of `generateBotVectorData` over all
`deletedFileIds`. -/
def reconcileDeleted (uuid : Nat → String) (snapshot : FileCatalog) (deletedIds : List String)
    (disk : CatalogDisk) (now : String) (u : Nat) : ReconState :=
  deletedIds.foldl (reconcileStep uuid snapshot now) { chunkIdsToDelete := [], disk := disk, u := u }

/-- The external collaborators of ingestion: vector store delete/add,
document loader, splitter.  `Except.error` models a thrown exception. -/
structure IngestCollab where
  storeDelete : List String → Except String Unit
  loadDocs : String → Except String (List String)
  splitDocs : List String → Except String (List String)
  addDocs : List String → Except String (List String)

/-- Loop state of the ingestion pass. -/
structure IngestState where
  disk : CatalogDisk
  u : Nat
  trace : List Event
deriving Repr

/-- `updateFileMetadata` call performed during ingestion, recorded in the
trace. -/
def catUpdateOn (uuid : Nat → String) (now : String) (st : IngestState) (fileId : String)
    (upd : MetaUpdates) : IngestState :=
  let r := updateFileMetadata uuid st.disk now st.u fileId upd
  { disk := r.2.1, u := r.2.2, trace := st.trace ++ [.catUpdate fileId upd] }

/-- The update written when processing a file fails with a thrown error. -/
def errorUpd (now msg : String) : MetaUpdates :=
  { processingStatus := some "error", errorMessage := some msg, processedAt := some now }

/-- The update resetting chunk bookkeeping before re-ingestion. -/
def resetUpd : MetaUpdates :=
  { chunkCount := some 0, chunkIds := some [] }

/-- The update written after a successful vector-store add. -/
def successUpd (now : String) (n : Nat) (ids : List String) : MetaUpdates :=
  { processingStatus := some "success", chunkCount := some n, chunkIds := some ids,
    processedAt := some now }

/-- The per-file procedure of `generateBotVectorData`: resolve the record by
name in the pre-sync snapshot (skip when missing); if it owns chunks, issue
the vector-store delete and reset the chunk fields; load, check for empty
extraction, split, issue the vector-store add; write the success update, or
— from the catch block — the error update with the stringified error. -/
def processFile (col : IngestCollab) (uuid : Nat → String) (snapshot : FileCatalog)
    (now : String) (st : IngestState) (fileName : String) : IngestState :=
  match (snapshot.files.map Prod.snd).find? (fun f => f.name == fileName) with
  | none => st
  | some fm =>
    let purged : Sum IngestState IngestState :=
      if fm.chunkIds.length > 0 then
        let stDel := { st with trace := st.trace ++ [Event.vsDelete fm.chunkIds] }
        match col.storeDelete fm.chunkIds with
        | .error e => .inl (catUpdateOn uuid now stDel fm.id (errorUpd now e))
        | .ok _ => .inr (catUpdateOn uuid now stDel fm.id resetUpd)
      else .inr st
    match purged with
    | .inl stErr => stErr
    | .inr st2 =>
      match col.loadDocs fileName with
      | .error e => catUpdateOn uuid now st2 fm.id (errorUpd now e)
      | .ok docs =>
        if docs.length == 0 then
          catUpdateOn uuid now st2 fm.id (errorUpd now "No content extracted from file")
        else
          match col.splitDocs docs with
          | .error e => catUpdateOn uuid now st2 fm.id (errorUpd now e)
          | .ok chunks =>
            let st3 := { st2 with trace := st2.trace ++ [Event.vsAdd chunks] }
            match col.addDocs chunks with
            | .error e => catUpdateOn uuid now st3 fm.id (errorUpd now e)
            | .ok ids => catUpdateOn uuid now st3 fm.id (successUpd now chunks.length ids)

/-- The ingestion loop over every file needing processing. -/
def ingestFiles (col : IngestCollab) (uuid : Nat → String) (snapshot : FileCatalog)
    (now : String) (files : List String) (st : IngestState) : IngestState :=
  files.foldl (processFile col uuid snapshot now) st

/-- Return value and side effects of one full sync pass. -/
structure SyncOut where
  result : CheckResult
  disk : CatalogDisk
  u : Nat
  trace : List Event
deriving Repr

/-- `generateBotVectorData`: load the pre-sync snapshot, run change
detection, purge the records and chunks of deleted files, and ingest every
file needing processing (the snapshot, not the re-loaded catalog, is used to
resolve records by name). -/
def generateBotVectorData (hash : String → String) (uuid : Nat → String) (col : IngestCollab)
    (dir : List DirEntry) (filt : String → Bool) (disk : CatalogDisk) (now : String) (u : Nat) :
    SyncOut :=
  let l := loadFileCatalog uuid disk now u
  let snapshot := l.1
  let c := checkForFileChanges hash uuid dir filt l.2.1 now l.2.2
  let recon := reconcileDeleted uuid snapshot c.result.deletedFileIds c.disk now c.u
  let delTrace : List Event :=
    if recon.chunkIdsToDelete.length > 0 then [.vsDelete recon.chunkIdsToDelete] else []
  if c.result.filesToProcess.length == 0 then
    { result := c.result, disk := recon.disk, u := recon.u, trace := c.trace ++ delTrace }
  else
    let ing := ingestFiles col uuid snapshot now c.result.filesToProcess
      { disk := recon.disk, u := recon.u, trace := c.trace ++ delTrace }
    { result := c.result, disk := ing.disk, u := ing.u, trace := ing.trace }

/-- `chunkIds.length = chunkCount` for every record of the catalog. -/
def chunkInvB (c : FileCatalog) : Bool :=
  c.files.all (fun kv => kv.2.chunkIds.length == kv.2.chunkCount)

/-- Key identity: every binding's record carries its key as `id`. -/
def keyIdB (c : FileCatalog) : Bool :=
  c.files.all (fun kv => kv.2.id == kv.1)

/-- Record lookup through the persisted state (only the current shape holds
records at rest). -/
def diskLookup (d : CatalogDisk) (k : String) : Option FileMetadata :=
  match d with
  | .current c => lookupKey c.files k
  | _ => none

/-- `chunkInvB` read through the persisted state. -/
def diskChunkInvB (d : CatalogDisk) : Bool :=
  match d with
  | .current c => chunkInvB c
  | _ => true

/-- A partial update that never desynchronizes `chunkCount` from
`chunkIds`: it either leaves both fields alone or sets them together with
matching length. -/
def consistentUpd (upd : MetaUpdates) : Bool :=
  match upd.chunkCount, upd.chunkIds with
  | none, none => true
  | some n, some l => l.length == n
  | _, _ => false

section AssocLemmas

theorem lookupKey_cons (kv : String × FileMetadata) (fs : List (String × FileMetadata))
    (k : String) :
    lookupKey (kv :: fs) k = if kv.1 == k then some kv.2 else lookupKey fs k := by
  simp only [lookupKey, List.find?]
  by_cases h : kv.1 == k
  · simp [h]
  · simp [h]

theorem lookupKey_setKey_self (fs : List (String × FileMetadata)) (k : String)
    (v : FileMetadata) : lookupKey (setKey fs k v) k = some v := by
  induction fs with
  | nil => simp [setKey, lookupKey, List.find?]
  | cons kv rest ih =>
      by_cases h : kv.1 == k
      · simp [setKey, h, lookupKey, List.find?]
      · simp only [setKey, h, if_false, Bool.false_eq_true]
        rw [lookupKey_cons]
        simp [h, ih]

theorem lookupKey_setKey_ne (fs : List (String × FileMetadata)) (k k' : String)
    (v : FileMetadata) (h : k' ≠ k) :
    lookupKey (setKey fs k v) k' = lookupKey fs k' := by
  induction fs with
  | nil =>
      simp only [setKey, lookupKey, List.find?]
      have : (k == k') = false := by
        simp only [beq_eq_false_iff_ne, ne_eq]
        exact fun hk => h hk.symm
      simp [this]
  | cons kv rest ih =>
      by_cases hkv : kv.1 == k
      · have hk1 : kv.1 = k := by exact beq_iff_eq.mp hkv
        simp only [setKey, hkv, if_true]
        rw [lookupKey_cons, lookupKey_cons]
        have hkk' : (k == k') = false := by
          simp only [beq_eq_false_iff_ne, ne_eq]
          exact fun hk => h hk.symm
        have hkvk' : (kv.1 == k') = false := by
          simp only [beq_eq_false_iff_ne, ne_eq, hk1]
          exact fun hk => h hk.symm
        simp [hkk', hkvk']
      · simp only [setKey, hkv, if_false, Bool.false_eq_true]
        rw [lookupKey_cons, lookupKey_cons]
        by_cases hkv' : kv.1 == k'
        · simp [hkv']
        · simp [hkv', ih]

theorem lookupKey_removeKey_self (fs : List (String × FileMetadata)) (k : String) :
    lookupKey (removeKey fs k) k = none := by
  induction fs with
  | nil => simp [removeKey, lookupKey, List.find?]
  | cons kv rest ih =>
      simp only [removeKey, List.filter_cons] at ih ⊢
      by_cases h : kv.1 == k
      · have hne : (kv.1 != k) = false := by simp [bne, h]
        simp only [hne, Bool.false_eq_true, if_false]
        simpa using ih
      · have hne : (kv.1 != k) = true := by simp [bne, h]
        simp only [hne, if_true]
        rw [lookupKey_cons]
        simp [h, ih]

theorem lookupKey_removeKey_ne (fs : List (String × FileMetadata)) (k k' : String)
    (h : k' ≠ k) : lookupKey (removeKey fs k) k' = lookupKey fs k' := by
  induction fs with
  | nil => simp [removeKey, lookupKey, List.find?]
  | cons kv rest ih =>
      simp only [removeKey, List.filter_cons] at ih ⊢
      by_cases hkv : kv.1 == k
      · have hk1 : kv.1 = k := beq_iff_eq.mp hkv
        have hkvk' : (kv.1 == k') = false := by
          simp only [beq_eq_false_iff_ne, ne_eq, hk1]
          exact fun hk => h hk.symm
        have hne : (kv.1 != k) = false := by simp [bne, hkv]
        simp only [hne, Bool.false_eq_true, if_false]
        rw [lookupKey_cons]
        simp [hkvk', ih]
      · have hne : (kv.1 != k) = true := by simp [bne, hkv]
        simp only [hne, if_true]
        rw [lookupKey_cons, lookupKey_cons]
        by_cases hkv' : kv.1 == k'
        · simp [hkv']
        · simp [hkv', ih]

theorem mem_of_lookupKey (fs : List (String × FileMetadata)) (k : String) (v : FileMetadata)
    (h : lookupKey fs k = some v) : (k, v) ∈ fs := by
  unfold lookupKey at h
  cases hf : fs.find? (fun kv => kv.1 == k) with
  | none => rw [hf] at h; exact absurd h (by simp)
  | some kv =>
      rw [hf] at h
      have hmem := List.mem_of_find?_eq_some hf
      have hp := List.find?_some hf
      have hk : kv.1 = k := beq_iff_eq.mp hp
      have hv : kv.2 = v := by simpa using h
      have : kv = (k, v) := by
        cases kv; simp_all
      rw [← this]; exact hmem

theorem all_setKey (fs : List (String × FileMetadata)) (k : String) (v : FileMetadata)
    (p : String × FileMetadata → Bool) (hall : fs.all p = true) (hp : p (k, v) = true) :
    (setKey fs k v).all p = true := by
  induction fs with
  | nil => simpa [setKey]
  | cons kv rest ih =>
      simp only [List.all_cons, Bool.and_eq_true] at hall
      by_cases h : kv.1 == k
      · simp [setKey, h, hp, hall.2]
      · simp only [setKey, h, if_false, Bool.false_eq_true, List.all_cons, Bool.and_eq_true]
        exact ⟨hall.1, ih hall.2⟩

theorem all_removeKey (fs : List (String × FileMetadata)) (k : String)
    (p : String × FileMetadata → Bool) (hall : fs.all p = true) :
    (removeKey fs k).all p = true := by
  simp only [List.all_eq_true] at hall ⊢
  intro kv hkv
  exact hall kv (List.mem_of_mem_filter hkv)

theorem all_of_lookupKey (fs : List (String × FileMetadata)) (k : String) (v : FileMetadata)
    (p : String × FileMetadata → Bool) (hall : fs.all p = true)
    (h : lookupKey fs k = some v) : p (k, v) = true := by
  simp only [List.all_eq_true] at hall
  exact hall (k, v) (mem_of_lookupKey fs k v h)

end AssocLemmas

section OpLemmas

theorem loadFileCatalog_current (uuid : Nat → String) (c : FileCatalog) (now : String) (u : Nat) :
    loadFileCatalog uuid (.current c) now u = (c, .current c, u) := rfl

theorem updateFileMetadata_current (uuid : Nat → String) (c : FileCatalog) (now : String)
    (u : Nat) (fileId : String) (upd : MetaUpdates) :
    updateFileMetadata uuid (.current c) now u fileId upd =
      match lookupKey c.files fileId with
      | none => (none, .current c, u)
      | some m =>
          (some (applyUpdates now m upd),
            .current { lastUpdated := now, files := setKey c.files fileId (applyUpdates now m upd) },
            u) := by
  unfold updateFileMetadata
  cases h : lookupKey c.files fileId with
  | none => simp [loadFileCatalog_current, h]
  | some m => simp [loadFileCatalog_current, h, saveFileCatalog, savedCat]

theorem removeFileFromCatalog_current (uuid : Nat → String) (c : FileCatalog) (now : String)
    (u : Nat) (fileId : String) :
    removeFileFromCatalog uuid (.current c) now u fileId =
      match lookupKey c.files fileId with
      | none => (false, .current c, u)
      | some _ =>
          (true, .current { lastUpdated := now, files := removeKey c.files fileId }, u) := by
  unfold removeFileFromCatalog
  cases h : lookupKey c.files fileId with
  | none => simp [loadFileCatalog_current, h]
  | some m => simp [loadFileCatalog_current, h, saveFileCatalog, savedCat]

theorem addLookup_mem (cat : FileCatalog) (fileName sourceLocation : String)
    (driveId : Option String) (kv : String × FileMetadata)
    (h : addLookup cat fileName sourceLocation driveId = some kv) : kv ∈ cat.files := by
  simp only [addLookup] at h
  cases hf : (if truthyStr driveId && (sourceLocation == "google-drive") then
      cat.files.find? (fun kv => kv.2.driveId == driveId && kv.2.sourceLocation == "google-drive")
    else none) with
  | some kvd =>
      rw [hf] at h
      have hkv : kvd = kv := by
        have h2 : some kvd = some kv := h
        exact Option.some.inj h2
      subst hkv
      by_cases hb : (truthyStr driveId && (sourceLocation == "google-drive")) = true
      · rw [if_pos hb] at hf
        exact List.mem_of_find?_eq_some hf
      · rw [if_neg hb] at hf
        exact absurd hf (by simp)
  | none =>
      rw [hf] at h
      have h2 : cat.files.find? (fun kv =>
          kv.2.name == fileName &&
            (if truthyStr driveId then kv.2.driveId == driveId else true)) = some kv := h
      exact List.mem_of_find?_eq_some h2

theorem addFileToFileCatalog_current (uuid : Nat → String) (c : FileCatalog) (now : String)
    (u : Nat) (fp mt : String) (size : Nat) (src : String) (dId : Option String) :
    addFileToFileCatalog uuid (.current c) now u fp mt size src dId =
      match addLookup c fp src dId with
      | some kv =>
          let f2 : FileMetadata :=
            { kv.2 with name := fp, size := size, lastModified := now,
                        processingStatus := "pending", driveId := dId }
          (f2, .current { lastUpdated := now, files := setKey c.files kv.1 f2 }, u + 1)
      | none =>
          let fm : FileMetadata :=
            { id := uuid u, name := fp, mimeType := mt, size := size, lastModified := now,
              sourceLocation := src, driveId := dId, contentHash := none,
              processingStatus := "pending", errorMessage := none, processedAt := none,
              chunkCount := 0, chunkIds := [] }
          (fm, .current { lastUpdated := now, files := setKey c.files (uuid u) fm }, u + 1) := by
  unfold addFileToFileCatalog
  cases h : addLookup c fp src dId with
  | none => simp [loadFileCatalog_current, h, saveFileCatalog, savedCat]
  | some kv => simp [loadFileCatalog_current, h, saveFileCatalog, savedCat]

end OpLemmas

section InvLemmas

/-- The persisted catalog is in the current shape and satisfies the
chunk-count invariant. -/
def CurInv (d : CatalogDisk) : Prop :=
  ∃ c, d = .current c ∧ chunkInvB c = true

/-- The persisted catalog is in the current shape and satisfies key
identity. -/
def CurKeyId (d : CatalogDisk) : Prop :=
  ∃ c, d = .current c ∧ keyIdB c = true

theorem chunkInv_applyUpdates (now : String) (m : FileMetadata) (upd : MetaUpdates)
    (hm : (m.chunkIds.length == m.chunkCount) = true) (hupd : consistentUpd upd = true) :
    ((applyUpdates now m upd).chunkIds.length == (applyUpdates now m upd).chunkCount) = true := by
  unfold consistentUpd at hupd
  unfold applyUpdates
  cases hn : upd.chunkCount with
  | none =>
      cases hl : upd.chunkIds with
      | none => simpa [hn, hl] using hm
      | some l => rw [hn, hl] at hupd; simp at hupd
  | some n =>
      cases hl : upd.chunkIds with
      | none => rw [hn, hl] at hupd; simp at hupd
      | some l =>
          rw [hn, hl] at hupd
          simpa [hn, hl] using hupd

theorem chunkInv_update (uuid : Nat → String) (c : FileCatalog) (now : String) (u : Nat)
    (fileId : String) (upd : MetaUpdates) (hc : chunkInvB c = true)
    (hupd : consistentUpd upd = true) :
    CurInv (updateFileMetadata uuid (.current c) now u fileId upd).2.1 := by
  rw [updateFileMetadata_current]
  cases h : lookupKey c.files fileId with
  | none => exact ⟨c, rfl, hc⟩
  | some m =>
      refine ⟨_, rfl, ?_⟩
      unfold chunkInvB at hc ⊢
      refine all_setKey _ _ _ _ hc ?_
      exact chunkInv_applyUpdates now m upd (all_of_lookupKey _ _ _ _ hc h) hupd

theorem chunkInv_remove (uuid : Nat → String) (c : FileCatalog) (now : String) (u : Nat)
    (fileId : String) (hc : chunkInvB c = true) :
    CurInv (removeFileFromCatalog uuid (.current c) now u fileId).2.1 := by
  rw [removeFileFromCatalog_current]
  cases h : lookupKey c.files fileId with
  | none => exact ⟨c, rfl, hc⟩
  | some m =>
      refine ⟨_, rfl, ?_⟩
      exact all_removeKey _ _ _ hc

theorem chunkInv_add (uuid : Nat → String) (c : FileCatalog) (now : String) (u : Nat)
    (fp mt : String) (size : Nat) (src : String) (dId : Option String)
    (hc : chunkInvB c = true) :
    CurInv (addFileToFileCatalog uuid (.current c) now u fp mt size src dId).2.1 := by
  rw [addFileToFileCatalog_current]
  cases h : addLookup c fp src dId with
  | none =>
      refine ⟨_, rfl, ?_⟩
      exact all_setKey _ _ _ _ hc (by simp)
  | some kv =>
      refine ⟨_, rfl, ?_⟩
      refine all_setKey _ _ _ _ hc ?_
      have hkv : (kv.2.chunkIds.length == kv.2.chunkCount) = true := by
        have hmem := addLookup_mem c fp src dId kv h
        simp only [chunkInvB, List.all_eq_true] at hc
        exact hc kv hmem
      simpa using hkv

theorem keyId_update (uuid : Nat → String) (c : FileCatalog) (now : String) (u : Nat)
    (fileId : String) (upd : MetaUpdates) (hc : keyIdB c = true) (hid : upd.id = none) :
    CurKeyId (updateFileMetadata uuid (.current c) now u fileId upd).2.1 := by
  rw [updateFileMetadata_current]
  cases h : lookupKey c.files fileId with
  | none => exact ⟨c, rfl, hc⟩
  | some m =>
      refine ⟨_, rfl, ?_⟩
      refine all_setKey _ _ _ _ hc ?_
      have hm : (m.id == fileId) = true := all_of_lookupKey _ _ _ _ hc h
      simp only [applyUpdates, hid, Option.getD_none]
      simpa using hm

theorem keyId_remove (uuid : Nat → String) (c : FileCatalog) (now : String) (u : Nat)
    (fileId : String) (hc : keyIdB c = true) :
    CurKeyId (removeFileFromCatalog uuid (.current c) now u fileId).2.1 := by
  rw [removeFileFromCatalog_current]
  cases h : lookupKey c.files fileId with
  | none => exact ⟨c, rfl, hc⟩
  | some m => exact ⟨_, rfl, all_removeKey _ _ _ hc⟩

theorem keyId_add (uuid : Nat → String) (c : FileCatalog) (now : String) (u : Nat)
    (fp mt : String) (size : Nat) (src : String) (dId : Option String)
    (hc : keyIdB c = true) :
    CurKeyId (addFileToFileCatalog uuid (.current c) now u fp mt size src dId).2.1 := by
  rw [addFileToFileCatalog_current]
  cases h : addLookup c fp src dId with
  | none =>
      refine ⟨_, rfl, ?_⟩
      exact all_setKey _ _ _ _ hc (by simp)
  | some kv =>
      refine ⟨_, rfl, ?_⟩
      refine all_setKey _ _ _ _ hc ?_
      have hkv : (kv.2.id == kv.1) = true := by
        have hmem := addLookup_mem c fp src dId kv h
        simp only [keyIdB, List.all_eq_true] at hc
        exact hc kv hmem
      simpa using hkv

theorem keyId_migrate (uuid : Nat → String) (now : String) :
    ∀ (u : Nat) (entries : List LegacyEntry),
      (migrateFiles uuid now u entries).all (fun kv => kv.2.id == kv.1) = true := by
  intro u entries
  induction entries generalizing u with
  | nil => simp [migrateFiles]
  | cons e rest ih =>
      simp only [migrateFiles, List.all_cons, Bool.and_eq_true]
      exact ⟨by simp [migrateEntry], ih (u + 1)⟩

theorem chunkInv_migrate (uuid : Nat → String) (now : String) :
    ∀ (u : Nat) (entries : List LegacyEntry),
      (migrateFiles uuid now u entries).all
          (fun kv => kv.2.chunkIds.length == kv.2.chunkCount) =
        entries.all (fun e => e.documentCount.getD 0 == 0) := by
  intro u entries
  induction entries generalizing u with
  | nil => simp [migrateFiles]
  | cons e rest ih =>
      simp only [migrateFiles, List.all_cons]
      rw [ih (u + 1)]
      congr 1
      simp [migrateEntry]
      cases e.documentCount with
      | none => simp
      | some n => cases n <;> simp

end InvLemmas

section CompositionLemmas

/-- The net persisted effect of `checkForFileChanges` is its final
`saveFileCatalog(catalog)`: the catalog loaded at entry, with only
`lastUpdated` refreshed — every save performed by the loop bodies is
overwritten. -/
theorem checkForFileChanges_disk (hash : String → String) (uuid : Nat → String)
    (dir : List DirEntry) (filt : String → Bool) (d : CatalogDisk) (now : String) (u : Nat) :
    (checkForFileChanges hash uuid dir filt d now u).disk =
      saveFileCatalog (loadFileCatalog uuid d now u).1 now := rfl

theorem catUpdateOn_CurInv (uuid : Nat → String) (now : String) (st : IngestState)
    (fileId : String) (upd : MetaUpdates) (h : CurInv st.disk)
    (hupd : consistentUpd upd = true) :
    CurInv (catUpdateOn uuid now st fileId upd).disk := by
  obtain ⟨c, hdisk, hc⟩ := h
  unfold catUpdateOn
  rw [hdisk]
  exact chunkInv_update uuid c now st.u fileId upd hc hupd

theorem processFile_CurInv (col : IngestCollab) (uuid : Nat → String)
    (snapshot : FileCatalog) (now : String) (st : IngestState) (fileName : String)
    (h : CurInv st.disk)
    (hadd : ∀ chunks ids, col.addDocs chunks = .ok ids → ids.length = chunks.length) :
    CurInv (processFile col uuid snapshot now st fileName).disk := by
  unfold processFile
  cases hfind : (snapshot.files.map Prod.snd).find? (fun f => f.name == fileName) with
  | none => exact h
  | some fm =>
      simp only
      have hpre : ∀ st2 : IngestState, CurInv st2.disk →
          CurInv ((match col.loadDocs fileName with
            | .error e => catUpdateOn uuid now st2 fm.id (errorUpd now e)
            | .ok docs =>
              if docs.length == 0 then
                catUpdateOn uuid now st2 fm.id (errorUpd now "No content extracted from file")
              else
                match col.splitDocs docs with
                | .error e => catUpdateOn uuid now st2 fm.id (errorUpd now e)
                | .ok chunks =>
                  let st3 := { st2 with trace := st2.trace ++ [Event.vsAdd chunks] }
                  match col.addDocs chunks with
                  | .error e => catUpdateOn uuid now st3 fm.id (errorUpd now e)
                  | .ok ids =>
                      catUpdateOn uuid now st3 fm.id (successUpd now chunks.length ids)) :
            IngestState).disk := by
        intro st2 h2
        cases hload : col.loadDocs fileName with
        | error e => exact catUpdateOn_CurInv uuid now st2 fm.id _ h2 rfl
        | ok docs =>
            by_cases hlen : (docs.length == 0) = true
            · simp only [hlen, if_true]
              exact catUpdateOn_CurInv uuid now st2 fm.id _ h2 rfl
            · simp only [hlen, if_false, Bool.false_eq_true]
              cases hsplit : col.splitDocs docs with
              | error e => exact catUpdateOn_CurInv uuid now st2 fm.id _ h2 rfl
              | ok chunks =>
                  simp only
                  cases haddr : col.addDocs chunks with
                  | error e => exact catUpdateOn_CurInv uuid now _ fm.id _ h2 rfl
                  | ok ids =>
                      refine catUpdateOn_CurInv uuid now _ fm.id _ h2 ?_
                      have := hadd chunks ids haddr
                      simp [consistentUpd, successUpd, this]
      by_cases hch : (fm.chunkIds.length > 0)
      · simp only [if_pos hch]
        cases hdel : col.storeDelete fm.chunkIds with
        | error e =>
            exact catUpdateOn_CurInv uuid now _ fm.id _ h rfl
        | ok _ =>
            exact hpre _ (catUpdateOn_CurInv uuid now _ fm.id _ h rfl)
      · simp only [if_neg hch]
        exact hpre st h

theorem ingestFiles_CurInv (col : IngestCollab) (uuid : Nat → String)
    (snapshot : FileCatalog) (now : String) (files : List String) (st : IngestState)
    (h : CurInv st.disk)
    (hadd : ∀ chunks ids, col.addDocs chunks = .ok ids → ids.length = chunks.length) :
    CurInv (ingestFiles col uuid snapshot now files st).disk := by
  induction files generalizing st with
  | nil => exact h
  | cons f rest ih =>
      exact ih _ (processFile_CurInv col uuid snapshot now st f h hadd)

theorem reconcileDeleted_CurInv (uuid : Nat → String) (snapshot : FileCatalog)
    (deletedIds : List String) (disk : CatalogDisk) (now : String) (u : Nat)
    (h : CurInv disk) :
    CurInv (reconcileDeleted uuid snapshot deletedIds disk now u).disk := by
  unfold reconcileDeleted
  suffices hgen : ∀ (st : ReconState), CurInv st.disk →
      CurInv (deletedIds.foldl (reconcileStep uuid snapshot now) st).disk by
    exact hgen { chunkIdsToDelete := [], disk := disk, u := u } h
  induction deletedIds with
  | nil => intro st hst; exact hst
  | cons i rest ih =>
      intro st hst
      refine ih _ ?_
      obtain ⟨c, hdisk, hc⟩ := hst
      unfold reconcileStep
      simp only
      rw [hdisk]
      exact chunkInv_remove uuid c now st.u i hc

end CompositionLemmas

section DemoInputs

/-- A concrete injective digest standing in for sha256 hex in the closed
scenarios: collision-free and never the empty string. -/
def demoHash (s : String) : String := "#" ++ s

/-- A concrete uuid source for the closed scenarios. -/
def demoUuid (n : Nat) : String := "u" ++ Nat.repr n

/-- Collaborators that always succeed: the loader yields one segment per
file, the splitter is the identity, the vector store returns one fresh id
per chunk. -/
def okCollab : IngestCollab where
  storeDelete := fun _ => .ok ()
  loadDocs := fun n => .ok ["doc-" ++ n]
  splitDocs := fun ds => .ok ds
  addDocs := fun cs => .ok (cs.map (fun c => "v-" ++ c))

/-- A directory holding the single readable file `a.txt`. -/
def dirOneNew : List DirEntry := [{ name := "a.txt", statSize := some 1, content := some "A" }]

/-- A legacy-array catalog whose single entry reports two ingested
documents. -/
def legacyTwoDocs : List LegacyEntry :=
  [{ filename := "a.txt", type := "txt", size := 1, documentCount := some 2 }]

/-- Catalog record whose stored `contentHash` is the empty string — exactly
what a previous scan stores after `calculateFileHash` swallowed a read
error. -/
def maskedRecord : FileMetadata :=
  { id := "r2", name := "a.txt", mimeType := "text/plain", size := 5, lastModified := "t0",
    sourceLocation := "manual-upload", contentHash := some "", processingStatus := "success",
    chunkCount := 0, chunkIds := [] }

/-- Catalog containing only `maskedRecord`. -/
def maskedCat : FileCatalog := { lastUpdated := "t0", files := [("r2", maskedRecord)] }

/-- Directory where `a.txt` stats fine but cannot be read, while `b.txt` is
a readable new file scanned after it. -/
def maskedDir : List DirEntry :=
  [{ name := "a.txt", statSize := some 5, content := none },
   { name := "b.txt", statSize := some 1, content := some "B" }]

end DemoInputs

/-- C5: the claim is FALSE on the code — when the persisted catalog exists
but cannot be read or parsed, `loadFileCatalog` does not surface the error:
its catch block returns a fresh empty catalog, indistinguishable from the
no-catalog case. -/
theorem c5_load_failure_counterexample :
    loadFileCatalog demoUuid .corrupt "t0" 0 = (emptyCatalog "t0", .corrupt, 0) ∧
    (loadFileCatalog demoUuid .corrupt "t0" 0).1 = (loadFileCatalog demoUuid .absent "t0" 0).1 :=
  ⟨rfl, rfl⟩

/-- C5 (amended): if the persisted catalog file exists but reading or
parsing it fails, `loadFileCatalog` logs the error and returns a fresh
empty catalog — exactly the value returned when no persisted catalog exists
— leaving the persisted file untouched; the error is not surfaced to the
caller and the sync pass proceeds against the empty catalog. -/
theorem c5_load_failure_amended (uuid : Nat → String) (now : String) (u : Nat) :
    loadFileCatalog uuid .corrupt now u = (emptyCatalog now, .corrupt, u) ∧
    (loadFileCatalog uuid .corrupt now u).1 = (loadFileCatalog uuid .absent now u).1 :=
  ⟨rfl, rfl⟩

/-- C5 witness: the amended statement evaluated at a concrete input. -/
theorem c5_load_failure_witness :
    loadFileCatalog demoUuid .corrupt "t9" 7 = (emptyCatalog "t9", .corrupt, 7) :=
  (c5_load_failure_amended demoUuid "t9" 7).1

/-- C1: the claim is FALSE on the code — migrating a legacy entry with
`documentCount = 2` produces (and persists) a record with `chunkCount = 2`
but `chunkIds = []`, so `chunkIds.length = chunkCount` fails on the
migrated catalog. -/
theorem c1_migration_counterexample :
    chunkInvB (loadFileCatalog demoUuid (.legacy legacyTwoDocs) "t0" 0).1 = false ∧
    (loadFileCatalog demoUuid (.legacy legacyTwoDocs) "t0" 0).2.1 =
      .current (loadFileCatalog demoUuid (.legacy legacyTwoDocs) "t0" 0).1 := by
  exact ⟨by decide, rfl⟩

/-- C1 (amended): `chunkIds.length = chunkCount` is preserved by every
catalog write of the pipeline — `addFileToFileCatalog`,
`updateFileMetadata` for updates that set `chunkCount` and `chunkIds`
together consistently or not at all (the only forms the pipeline issues),
`removeFileFromCatalog`, `checkForFileChanges`, and a full sync pass
whenever the vector store returns one id per submitted chunk — provided the
invariant held beforehand.  Legacy migration, however, copies the entry's
`documentCount` into `chunkCount` while always writing `chunkIds = []`, so
a migrated catalog satisfies the invariant exactly when every legacy entry
has `documentCount` zero (or missing). -/
theorem c1_chunk_invariant_amended :
    (∀ (uuid : Nat → String) (now : String) (u : Nat) (entries : List LegacyEntry),
        chunkInvB (loadFileCatalog uuid (.legacy entries) now u).1 =
          entries.all (fun e => e.documentCount.getD 0 == 0)) ∧
    (∀ (uuid : Nat → String) (c : FileCatalog) (now : String) (u : Nat) (fp mt : String)
        (size : Nat) (src : String) (dId : Option String), chunkInvB c = true →
        CurInv (addFileToFileCatalog uuid (.current c) now u fp mt size src dId).2.1) ∧
    (∀ (uuid : Nat → String) (c : FileCatalog) (now : String) (u : Nat) (fileId : String)
        (upd : MetaUpdates), chunkInvB c = true → consistentUpd upd = true →
        CurInv (updateFileMetadata uuid (.current c) now u fileId upd).2.1) ∧
    (∀ (uuid : Nat → String) (c : FileCatalog) (now : String) (u : Nat) (fileId : String),
        chunkInvB c = true →
        CurInv (removeFileFromCatalog uuid (.current c) now u fileId).2.1) ∧
    (∀ (hash : String → String) (uuid : Nat → String) (dir : List DirEntry)
        (filt : String → Bool) (c : FileCatalog) (now : String) (u : Nat), chunkInvB c = true →
        CurInv (checkForFileChanges hash uuid dir filt (.current c) now u).disk) ∧
    (∀ (hash : String → String) (uuid : Nat → String) (col : IngestCollab)
        (dir : List DirEntry) (filt : String → Bool) (c : FileCatalog) (now : String) (u : Nat),
        chunkInvB c = true →
        (∀ chunks ids, col.addDocs chunks = .ok ids → ids.length = chunks.length) →
        CurInv (generateBotVectorData hash uuid col dir filt (.current c) now u).disk) := by
  refine ⟨?_, ?_, ?_, ?_, ?_, ?_⟩
  · intro uuid now u entries
    show chunkInvB (savedCat { lastUpdated := now, files := migrateFiles uuid now u entries } now) = _
    unfold chunkInvB savedCat
    exact chunkInv_migrate uuid now u entries
  · intro uuid c now u fp mt size src dId hc
    exact chunkInv_add uuid c now u fp mt size src dId hc
  · intro uuid c now u fileId upd hc hupd
    exact chunkInv_update uuid c now u fileId upd hc hupd
  · intro uuid c now u fileId hc
    exact chunkInv_remove uuid c now u fileId hc
  · intro hash uuid dir filt c now u hc
    rw [checkForFileChanges_disk]
    exact ⟨_, rfl, hc⟩
  · intro hash uuid col dir filt c now u hc hadd
    unfold generateBotVectorData
    simp only [loadFileCatalog_current]
    have hcheck : CurInv (checkForFileChanges hash uuid dir filt (.current c) now u).disk := by
      rw [checkForFileChanges_disk]
      exact ⟨_, rfl, hc⟩
    have hrecon := reconcileDeleted_CurInv uuid c
      (checkForFileChanges hash uuid dir filt (.current c) now u).result.deletedFileIds
      (checkForFileChanges hash uuid dir filt (.current c) now u).disk now
      (checkForFileChanges hash uuid dir filt (.current c) now u).u hcheck
    by_cases hlen :
        ((checkForFileChanges hash uuid dir filt (.current c) now u).result.filesToProcess.length
          == 0) = true
    · simpa [hlen] using hrecon
    · simp only [hlen, if_false, Bool.false_eq_true]
      exact ingestFiles_CurInv col uuid c now _ _ hrecon hadd

/-- C1 witness: the add-operation conjunct applied at a concrete catalog. -/
theorem c1_chunk_invariant_witness :
    CurInv (addFileToFileCatalog demoUuid (.current (emptyCatalog "t0")) "t1" 0 "a.txt"
      "text/plain" 1 "manual-upload" none).2.1 :=
  c1_chunk_invariant_amended.2.1 demoUuid (emptyCatalog "t0") "t1" 0 "a.txt" "text/plain" 1
    "manual-upload" none (by decide)

/-- Key identity read through the persisted state: whenever the file holds
a current-shape catalog, that catalog satisfies `keyIdB`. -/
def DiskKeyId (d : CatalogDisk) : Prop :=
  ∀ c, d = .current c → keyIdB c = true

/-- C10: every core catalog operation preserves key identity
(`files[k].id = k`): loading — including legacy-array migration, which
synthesizes each record under its own fresh id — `addFileToFileCatalog`
(both the in-place update and the fresh-record branch),
`updateFileMetadata` whenever the partial update carries no `id` field,
`removeFileFromCatalog`, and `checkForFileChanges`. -/
theorem c10_key_identity :
    (∀ (uuid : Nat → String) (disk : CatalogDisk) (now : String) (u : Nat),
        DiskKeyId disk →
        keyIdB (loadFileCatalog uuid disk now u).1 = true ∧
        DiskKeyId (loadFileCatalog uuid disk now u).2.1) ∧
    (∀ (uuid : Nat → String) (c : FileCatalog) (now : String) (u : Nat) (fp mt : String)
        (size : Nat) (src : String) (dId : Option String), keyIdB c = true →
        CurKeyId (addFileToFileCatalog uuid (.current c) now u fp mt size src dId).2.1) ∧
    (∀ (uuid : Nat → String) (c : FileCatalog) (now : String) (u : Nat) (fileId : String)
        (upd : MetaUpdates), keyIdB c = true → upd.id = none →
        CurKeyId (updateFileMetadata uuid (.current c) now u fileId upd).2.1) ∧
    (∀ (uuid : Nat → String) (c : FileCatalog) (now : String) (u : Nat) (fileId : String),
        keyIdB c = true →
        CurKeyId (removeFileFromCatalog uuid (.current c) now u fileId).2.1) ∧
    (∀ (hash : String → String) (uuid : Nat → String) (dir : List DirEntry)
        (filt : String → Bool) (c : FileCatalog) (now : String) (u : Nat), keyIdB c = true →
        CurKeyId (checkForFileChanges hash uuid dir filt (.current c) now u).disk) := by
  refine ⟨?_, ?_, ?_, ?_, ?_⟩
  · intro uuid disk now u hd
    cases disk with
    | absent =>
        refine ⟨rfl, ?_⟩
        intro c h
        exact CatalogDisk.noConfusion h
    | corrupt =>
        refine ⟨rfl, ?_⟩
        intro c h
        exact CatalogDisk.noConfusion h
    | legacy entries =>
        constructor
        · show keyIdB (savedCat { lastUpdated := now, files := migrateFiles uuid now u entries } now) = true
          unfold keyIdB savedCat
          exact keyId_migrate uuid now u entries
        · intro c h
          have hc : c = savedCat { lastUpdated := now, files := migrateFiles uuid now u entries } now := by
            have h2 : saveFileCatalog { lastUpdated := now, files := migrateFiles uuid now u entries } now = .current c := h
            unfold saveFileCatalog at h2
            exact (CatalogDisk.current.inj h2).symm
          rw [hc]
          unfold keyIdB savedCat
          exact keyId_migrate uuid now u entries
    | current c =>
        refine ⟨hd c rfl, ?_⟩
        intro c' h
        have : c' = c := (CatalogDisk.current.inj h).symm
        rw [this]
        exact hd c rfl
  · intro uuid c now u fp mt size src dId hc
    exact keyId_add uuid c now u fp mt size src dId hc
  · intro uuid c now u fileId upd hc hid
    exact keyId_update uuid c now u fileId upd hc hid
  · intro uuid c now u fileId hc
    exact keyId_remove uuid c now u fileId hc
  · intro hash uuid dir filt c now u hc
    rw [checkForFileChanges_disk]
    exact ⟨_, rfl, hc⟩

/-- C10 witness: the add-operation conjunct applied at a concrete catalog. -/
theorem c10_key_identity_witness :
    CurKeyId (addFileToFileCatalog demoUuid (.current (emptyCatalog "t0")) "t1" 0 "b.txt"
      "text/plain" 2 "manual-upload" none).2.1 :=
  c10_key_identity.2.1 demoUuid (emptyCatalog "t0") "t1" 0 "b.txt" "text/plain" 2
    "manual-upload" none (by decide)

/-- First sync pass over an empty catalog and a directory holding the new
file `a.txt`, with collaborators that all succeed. -/
def syncOnce : SyncOut :=
  generateBotVectorData demoHash demoUuid okCollab dirOneNew (fun _ => true)
    (.current { lastUpdated := "t0", files := [] }) "t1" 0

/-- Second sync pass over the state the first pass persisted, with no
filesystem change in between. -/
def syncTwice : SyncOut :=
  generateBotVectorData demoHash demoUuid okCollab dirOneNew (fun _ => true)
    syncOnce.disk "t2" syncOnce.u

/-- C3: the claim is RIGHT and the code is WRONG — a second sync over an
unchanged filesystem does not yield an empty `filesToProcess`.  The first
pass adds `a.txt` to the catalog through `addFileToFileCatalog`, but
`checkForFileChanges` then overwrites the persisted catalog with the stale
in-memory copy it loaded at entry, so the persisted catalog is still empty
after the pass and the second pass classifies `a.txt` as NEW again. -/
theorem c3_second_sync_reprocesses :
    syncOnce.result.filesToProcess = ["a.txt"] ∧
    syncOnce.disk = .current { lastUpdated := "t1", files := [] } ∧
    syncTwice.result.filesToProcess = ["a.txt"] := by
  refine ⟨by decide, by decide, by decide⟩

/-- C4: the claim is RIGHT and the code is WRONG — `calculateFileHash`
swallows the read error and substitutes the empty string; with a stored
`contentHash` of `""` the unreadable `a.txt` then compares equal, is
classified UNCHANGED, and lands in `filesToSkip` instead of
`filesToProcess` (the `b.txt` result shows the scan of the remaining files
does continue). -/
theorem c4_hash_failure_masked :
    hashOfEntry demoHash { name := "a.txt", statSize := some 5, content := none } = "" ∧
    (checkForFileChanges demoHash demoUuid maskedDir (fun _ => true) (.current maskedCat)
        "t1" 0).result.filesToSkip = ["a.txt"] ∧
    (checkForFileChanges demoHash demoUuid maskedDir (fun _ => true) (.current maskedCat)
        "t1" 0).result.filesToProcess = ["b.txt"] := by
  refine ⟨rfl, by decide, by decide⟩

/-- The `chunkIds` the snapshot catalog stores for a record id (empty when
the id is absent). -/
def chunkIdsOf (snapshot : FileCatalog) (id : String) : List String :=
  match lookupKey snapshot.files id with
  | some m => m.chunkIds
  | none => []

/-- The stale chunk identifiers of a list of deleted record ids, in
iteration order. -/
def staleChunks (snapshot : FileCatalog) : List String → List String
  | [] => []
  | id :: rest => chunkIdsOf snapshot id ++ staleChunks snapshot rest

theorem reconcileStep_chunks (uuid : Nat → String) (snapshot : FileCatalog) (now : String)
    (st : ReconState) (id : String) :
    (reconcileStep uuid snapshot now st id).chunkIdsToDelete =
      st.chunkIdsToDelete ++ chunkIdsOf snapshot id := by
  unfold reconcileStep chunkIdsOf
  cases h : lookupKey snapshot.files id with
  | none => simp [h]
  | some m =>
      simp only [h]
      by_cases hl : (m.chunkIds.length > 0)
      · simp [hl]
      · have : m.chunkIds = [] := by
          cases hml : m.chunkIds with
          | nil => rfl
          | cons a l => rw [hml] at hl; simp at hl
        simp [hl, this]

theorem reconcile_fold_chunks (uuid : Nat → String) (snapshot : FileCatalog) (now : String) :
    ∀ (ids : List String) (st : ReconState),
      (ids.foldl (reconcileStep uuid snapshot now) st).chunkIdsToDelete =
        st.chunkIdsToDelete ++ staleChunks snapshot ids := by
  intro ids
  induction ids with
  | nil => intro st; simp [staleChunks]
  | cons i rest ih =>
      intro st
      simp only [List.foldl_cons, staleChunks]
      rw [ih, reconcileStep_chunks]
      simp

theorem reconcile_fold_disk (uuid : Nat → String) (snapshot : FileCatalog) (now : String) :
    ∀ (ids : List String) (st : ReconState) (c : FileCatalog), st.disk = .current c →
      ∃ c2, (ids.foldl (reconcileStep uuid snapshot now) st).disk = .current c2 ∧
        ∀ k, lookupKey c2.files k = if k ∈ ids then none else lookupKey c.files k := by
  intro ids
  induction ids with
  | nil =>
      intro st c hdisk
      exact ⟨c, hdisk, fun k => by simp⟩
  | cons i rest ih =>
      intro st c hdisk
      have hstep : ∃ c1, (reconcileStep uuid snapshot now st i).disk = .current c1 ∧
          ∀ k, lookupKey c1.files k = if k = i then none else lookupKey c.files k := by
        unfold reconcileStep
        simp only
        rw [hdisk, removeFileFromCatalog_current]
        cases h : lookupKey c.files i with
        | none =>
            refine ⟨c, rfl, fun k => ?_⟩
            by_cases hk : k = i
            · subst hk; simp [h]
            · simp [hk]
        | some m =>
            refine ⟨_, rfl, fun k => ?_⟩
            by_cases hk : k = i
            · subst hk
              simp [lookupKey_removeKey_self]
            · simp only [hk, if_false]
              exact lookupKey_removeKey_ne c.files i k hk
      obtain ⟨c1, hd1, hl1⟩ := hstep
      obtain ⟨c2, hd2, hl2⟩ := ih (reconcileStep uuid snapshot now st i) c1 hd1
      refine ⟨c2, by simpa using hd2, fun k => ?_⟩
      rw [hl2 k, hl1 k]
      by_cases hr : k ∈ rest
      · simp [hr]
      · by_cases hk : k = i
        · subst hk; simp [hr]
        · simp [hr, hk, List.mem_cons]

/-- C7: for every deletedFileIds list produced by change detection, the
deleted-files pass removes each corresponding record from the persisted
catalog and nothing else, and the chunk identifiers it accumulates for the
vector-store delete are exactly the concatenation of the `chunkIds` stored
in the snapshot for those ids, read before removal (ids with empty or
absent `chunkIds` contribute nothing). -/
theorem c7_reconciliation_removals (uuid : Nat → String) (snapshot c : FileCatalog)
    (deletedIds : List String) (now : String) (u : Nat) :
    (reconcileDeleted uuid snapshot deletedIds (.current c) now u).chunkIdsToDelete =
      staleChunks snapshot deletedIds ∧
    (∀ id ∈ deletedIds,
      diskLookup (reconcileDeleted uuid snapshot deletedIds (.current c) now u).disk id = none) ∧
    (∀ k, k ∉ deletedIds →
      diskLookup (reconcileDeleted uuid snapshot deletedIds (.current c) now u).disk k =
        lookupKey c.files k) := by
  have hchunks := reconcile_fold_chunks uuid snapshot now deletedIds
    { chunkIdsToDelete := [], disk := .current c, u := u }
  have hdisk := reconcile_fold_disk uuid snapshot now deletedIds
    { chunkIdsToDelete := [], disk := .current c, u := u } c rfl
  obtain ⟨c2, hd2, hl2⟩ := hdisk
  refine ⟨by simpa [reconcileDeleted] using hchunks, ?_, ?_⟩
  · intro id hid
    show diskLookup (reconcileDeleted uuid snapshot deletedIds (.current c) now u).disk id = none
    unfold reconcileDeleted
    rw [hd2]
    show lookupKey c2.files id = none
    rw [hl2 id]
    simp [hid]
  · intro k hk
    unfold reconcileDeleted
    rw [hd2]
    show lookupKey c2.files k = lookupKey c.files k
    rw [hl2 k]
    simp [hk]

/-- A two-record catalog used to exercise the reconciliation theorem. -/
def reconCat : FileCatalog :=
  { lastUpdated := "t0",
    files :=
      [("d1",
        { id := "d1", name := "gone.txt", mimeType := "text/plain", size := 3,
          lastModified := "t0", sourceLocation := "manual-upload",
          processingStatus := "success", chunkCount := 2, chunkIds := ["v1", "v2"] }),
       ("k1",
        { id := "k1", name := "kept.txt", mimeType := "text/plain", size := 4,
          lastModified := "t0", sourceLocation := "manual-upload",
          processingStatus := "success", chunkCount := 1, chunkIds := ["v3"] })] }

/-- C7 witness: the theorem applied to a concrete catalog, evaluated. -/
theorem c7_reconciliation_witness :
    (reconcileDeleted demoUuid reconCat ["d1"] (.current reconCat) "t1" 0).chunkIdsToDelete =
      ["v1", "v2"] ∧
    diskLookup (reconcileDeleted demoUuid reconCat ["d1"] (.current reconCat) "t1" 0).disk
      "d1" = none := by
  have h := c7_reconciliation_removals demoUuid reconCat reconCat ["d1"] "t1" 0
  refine ⟨?_, h.2.1 "d1" (by decide)⟩
  rw [h.1]
  decide

/-- C8: for every file whose snapshot record owns chunks, the per-file
ingestion procedure issues the vector-store deletion of the old chunk ids
as its very first external call, writes the reset of `chunkCount`/`chunkIds`
immediately after it, and only then — strictly later in the trace — may the
vector-store add be issued; the add is never issued before the delete. -/
theorem c8_delete_before_add (col : IngestCollab) (uuid : Nat → String)
    (snapshot : FileCatalog) (now : String) (disk : CatalogDisk) (u : Nat)
    (fileName : String) (r : FileMetadata)
    (hfind : (snapshot.files.map Prod.snd).find? (fun f => f.name == fileName) = some r)
    (hchunks : r.chunkIds ≠ []) :
    (processFile col uuid snapshot now { disk := disk, u := u, trace := [] } fileName).trace.head? =
      some (.vsDelete r.chunkIds) ∧
    ∀ chunks,
      Event.vsAdd chunks ∈
        (processFile col uuid snapshot now { disk := disk, u := u, trace := [] } fileName).trace →
      ∃ rest,
        (processFile col uuid snapshot now { disk := disk, u := u, trace := [] } fileName).trace =
          .vsDelete r.chunkIds :: .catUpdate r.id resetUpd :: rest ∧
        Event.vsAdd chunks ∈ rest := by
  have hpos : r.chunkIds.length > 0 := List.length_pos.mpr hchunks
  unfold processFile
  rw [hfind]
  simp only [if_pos hpos]
  cases hdel : col.storeDelete r.chunkIds with
  | error e =>
      simp only [catUpdateOn]
      constructor
      · rfl
      · intro chunks hmem
        simp at hmem
  | ok _ =>
      simp only [catUpdateOn]
      cases hload : col.loadDocs fileName with
      | error e =>
          constructor
          · rfl
          · intro chunks hmem
            simp at hmem
      | ok docs =>
          by_cases hempty : (docs.length == 0) = true
          · simp only [hempty, if_true]
            constructor
            · rfl
            · intro chunks hmem
              simp at hmem
          · simp only [hempty, if_false, Bool.false_eq_true]
            cases hsplit : col.splitDocs docs with
            | error e =>
                constructor
                · rfl
                · intro chunks hmem
                  simp at hmem
            | ok segs =>
                simp only
                cases haddc : col.addDocs segs with
                | error e =>
                    constructor
                    · rfl
                    · intro chunks hmem
                      simp only [List.nil_append, List.cons_append, List.append_assoc] at hmem ⊢
                      refine ⟨[Event.vsAdd segs, Event.catUpdate r.id (errorUpd now e)], ?_, ?_⟩
                      · rfl
                      · simp at hmem
                        simp [hmem]
                | ok ids =>
                    constructor
                    · rfl
                    · intro chunks hmem
                      refine ⟨[Event.vsAdd segs,
                        Event.catUpdate r.id (successUpd now segs.length ids)], ?_, ?_⟩
                      · rfl
                      · simp at hmem
                        simp [hmem]

/-- C8 witness: the theorem applied to a concrete snapshot whose record for
`kept.txt` owns the chunk `v3`. -/
theorem c8_delete_before_add_witness :
    (processFile okCollab demoUuid reconCat "t1"
        { disk := .current reconCat, u := 0, trace := [] } "kept.txt").trace.head? =
      some (.vsDelete ["v3"]) := by
  have h := c8_delete_before_add okCollab demoUuid reconCat "t1" (.current reconCat) 0
    "kept.txt"
    { id := "k1", name := "kept.txt", mimeType := "text/plain", size := 4,
      lastModified := "t0", sourceLocation := "manual-upload",
      processingStatus := "success", chunkCount := 1, chunkIds := ["v3"] }
    (by decide) (by decide)
  exact h.1

section ScanLemmas

/-- Classification of one directory entry by the scan loop against the
stale in-memory catalog: must-process when `statSync` throws, when the
record matched by name satisfies `changedB`, or when no record matches. -/
def goesProcB (hash : String → String) (cat : FileCatalog) (e : DirEntry) : Bool :=
  match e.statSize with
  | none => true
  | some size =>
    match cat.files.find? (fun kv => kv.2.name == e.name) with
    | some kv => changedB kv.2 size (hashOfEntry hash e)
    | none => true

/-- Complement classification: skipped when the record matched by name is
unchanged. -/
def goesSkipB (hash : String → String) (cat : FileCatalog) (e : DirEntry) : Bool :=
  match e.statSize with
  | none => false
  | some size =>
    match cat.files.find? (fun kv => kv.2.name == e.name) with
    | some kv => !changedB kv.2 size (hashOfEntry hash e)
    | none => false

/-- Effect of one scan iteration on the deleted-ids list: the id of the
record matched by name is spliced out. -/
def scanErase (cat : FileCatalog) (e : DirEntry) (d : List String) : List String :=
  match e.statSize with
  | none => d
  | some _ =>
    match cat.files.find? (fun kv => kv.2.name == e.name) with
    | some kv => d.erase kv.2.id
    | none => d

theorem scanStep_proc (hash : String → String) (uuid : Nat → String) (cat : FileCatalog)
    (now : String) (st : ScanState) (e : DirEntry) :
    (scanStep hash uuid cat now st e).proc =
      if goesProcB hash cat e then st.proc ++ [e.name] else st.proc := by
  unfold scanStep goesProcB
  cases e.statSize with
  | none => simp
  | some size =>
      cases hf : cat.files.find? (fun kv => kv.2.name == e.name) with
      | none => simp
      | some kv =>
          by_cases hch : changedB kv.2 size (hashOfEntry hash e) = true
          · simp [hch]
          · simp only [Bool.not_eq_true] at hch
            simp [hch]

theorem scanStep_skip (hash : String → String) (uuid : Nat → String) (cat : FileCatalog)
    (now : String) (st : ScanState) (e : DirEntry) :
    (scanStep hash uuid cat now st e).skip =
      if goesSkipB hash cat e then st.skip ++ [e.name] else st.skip := by
  unfold scanStep goesSkipB
  cases e.statSize with
  | none => simp
  | some size =>
      cases hf : cat.files.find? (fun kv => kv.2.name == e.name) with
      | none => simp
      | some kv =>
          by_cases hch : changedB kv.2 size (hashOfEntry hash e) = true
          · simp [hch]
          · simp only [Bool.not_eq_true] at hch
            simp [hch]

theorem scanStep_deleted (hash : String → String) (uuid : Nat → String) (cat : FileCatalog)
    (now : String) (st : ScanState) (e : DirEntry) :
    (scanStep hash uuid cat now st e).deleted = scanErase cat e st.deleted := by
  unfold scanStep scanErase
  cases e.statSize with
  | none => simp
  | some size =>
      cases hf : cat.files.find? (fun kv => kv.2.name == e.name) with
      | none => simp
      | some kv =>
          by_cases hch : changedB kv.2 size (hashOfEntry hash e) = true
          · simp [hch]
          · simp only [Bool.not_eq_true] at hch
            simp [hch]

theorem scanStep_trace_grows (hash : String → String) (uuid : Nat → String) (cat : FileCatalog)
    (now : String) (st : ScanState) (e : DirEntry) :
    ∃ t, (scanStep hash uuid cat now st e).trace = st.trace ++ t := by
  unfold scanStep
  cases e.statSize with
  | none => exact ⟨[], by simp⟩
  | some size =>
      cases hf : cat.files.find? (fun kv => kv.2.name == e.name) with
      | none => exact ⟨_, rfl⟩
      | some kv =>
          by_cases hch : changedB kv.2 size (hashOfEntry hash e) = true
          · simp only [hch, if_true]
            exact ⟨_, rfl⟩
          · simp only [Bool.not_eq_true] at hch
            simp only [hch, Bool.false_eq_true, if_false]
            exact ⟨[], by simp⟩

theorem scan_fold_proc (hash : String → String) (uuid : Nat → String) (cat : FileCatalog)
    (now : String) :
    ∀ (es : List DirEntry) (st : ScanState),
      (es.foldl (scanStep hash uuid cat now) st).proc =
        st.proc ++ (es.filter (goesProcB hash cat)).map DirEntry.name := by
  intro es
  induction es with
  | nil => intro st; simp
  | cons e rest ih =>
      intro st
      simp only [List.foldl_cons, List.filter_cons]
      rw [ih]
      rw [scanStep_proc]
      by_cases hp : goesProcB hash cat e = true
      · simp [hp]
      · simp only [Bool.not_eq_true] at hp
        simp [hp]

theorem scan_fold_skip (hash : String → String) (uuid : Nat → String) (cat : FileCatalog)
    (now : String) :
    ∀ (es : List DirEntry) (st : ScanState),
      (es.foldl (scanStep hash uuid cat now) st).skip =
        st.skip ++ (es.filter (goesSkipB hash cat)).map DirEntry.name := by
  intro es
  induction es with
  | nil => intro st; simp
  | cons e rest ih =>
      intro st
      simp only [List.foldl_cons, List.filter_cons]
      rw [ih]
      rw [scanStep_skip]
      by_cases hp : goesSkipB hash cat e = true
      · simp [hp]
      · simp only [Bool.not_eq_true] at hp
        simp [hp]

theorem scan_fold_deleted (hash : String → String) (uuid : Nat → String) (cat : FileCatalog)
    (now : String) :
    ∀ (es : List DirEntry) (st : ScanState),
      (es.foldl (scanStep hash uuid cat now) st).deleted =
        es.foldl (fun d e => scanErase cat e d) st.deleted := by
  intro es
  induction es with
  | nil => intro st; simp
  | cons e rest ih =>
      intro st
      simp only [List.foldl_cons]
      rw [ih, scanStep_deleted]

theorem scan_fold_trace_mono (hash : String → String) (uuid : Nat → String) (cat : FileCatalog)
    (now : String) :
    ∀ (es : List DirEntry) (st : ScanState) (x : Event), x ∈ st.trace →
      x ∈ (es.foldl (scanStep hash uuid cat now) st).trace := by
  intro es
  induction es with
  | nil => intro st x hx; exact hx
  | cons e rest ih =>
      intro st x hx
      refine ih _ x ?_
      obtain ⟨t, ht⟩ := scanStep_trace_grows hash uuid cat now st e
      rw [ht]
      exact List.mem_append_left t hx

theorem scan_fold_proc_mono (hash : String → String) (uuid : Nat → String) (cat : FileCatalog)
    (now : String) (es : List DirEntry) (st : ScanState) (x : String) (hx : x ∈ st.proc) :
    x ∈ (es.foldl (scanStep hash uuid cat now) st).proc := by
  rw [scan_fold_proc]
  exact List.mem_append_left _ hx

end ScanLemmas

section RenameLemmas

theorem renameStep_proc_mono (hash : String → String) (uuid : Nat → String)
    (cat : FileCatalog) (files : List DirEntry) (now : String) (st : ScanState)
    (fileId : String) (x : String) (hx : x ∈ st.proc) :
    x ∈ (renameStep hash uuid cat files now st fileId).proc := by
  unfold renameStep
  split
  · exact hx
  · split
    · exact hx
    · next e ht =>
        dsimp only
        by_cases hc : st.proc.contains e.name = true
        · simp only [hc, if_true]
          exact hx
        · simp only [hc, Bool.false_eq_true, if_false]
          exact List.mem_append_left _ hx

theorem renameStep_trace_grows (hash : String → String) (uuid : Nat → String)
    (cat : FileCatalog) (files : List DirEntry) (now : String) (st : ScanState)
    (fileId : String) :
    ∃ t, (renameStep hash uuid cat files now st fileId).trace = st.trace ++ t := by
  unfold renameStep
  split
  · exact ⟨[], by simp⟩
  · split
    · exact ⟨[], by simp⟩
    · dsimp only
      exact ⟨_, rfl⟩

theorem renameStep_deleted_shrinks (hash : String → String) (uuid : Nat → String)
    (cat : FileCatalog) (files : List DirEntry) (now : String) (st : ScanState)
    (fileId : String) (x : String)
    (hx : x ∈ (renameStep hash uuid cat files now st fileId).deleted) : x ∈ st.deleted := by
  unfold renameStep at hx
  split at hx
  · exact hx
  · split at hx
    · exact hx
    · dsimp only at hx
      exact List.mem_of_mem_erase hx

theorem rename_fold_proc_mono (hash : String → String) (uuid : Nat → String)
    (cat : FileCatalog) (files : List DirEntry) (now : String) :
    ∀ (ids : List String) (st : ScanState) (x : String), x ∈ st.proc →
      x ∈ (ids.foldl (renameStep hash uuid cat files now) st).proc := by
  intro ids
  induction ids with
  | nil => intro st x hx; exact hx
  | cons i rest ih =>
      intro st x hx
      exact ih _ x (renameStep_proc_mono hash uuid cat files now st i x hx)

theorem rename_fold_trace_mono (hash : String → String) (uuid : Nat → String)
    (cat : FileCatalog) (files : List DirEntry) (now : String) :
    ∀ (ids : List String) (st : ScanState) (x : Event), x ∈ st.trace →
      x ∈ (ids.foldl (renameStep hash uuid cat files now) st).trace := by
  intro ids
  induction ids with
  | nil => intro st x hx; exact hx
  | cons i rest ih =>
      intro st x hx
      refine ih _ x ?_
      obtain ⟨t, ht⟩ := renameStep_trace_grows hash uuid cat files now st i
      rw [ht]
      exact List.mem_append_left t hx

theorem rename_fold_deleted_shrinks (hash : String → String) (uuid : Nat → String)
    (cat : FileCatalog) (files : List DirEntry) (now : String) :
    ∀ (ids : List String) (st : ScanState) (x : String),
      x ∈ (ids.foldl (renameStep hash uuid cat files now) st).deleted → x ∈ st.deleted := by
  intro ids
  induction ids with
  | nil => intro st x hx; exact hx
  | cons i rest ih =>
      intro st x hx
      exact renameStep_deleted_shrinks hash uuid cat files now st i x (ih _ x hx)

/-- When no manual-upload record of the stale catalog has a stored
`contentHash` matching any observed file's recomputed hash, the
rename-detection loop is the identity on the whole scan state. -/
theorem rename_fold_id (hash : String → String) (uuid : Nat → String) (cat : FileCatalog)
    (files : List DirEntry) (now : String)
    (hnr : ∀ p ∈ cat.files, p.2.sourceLocation = "manual-upload" →
      truthyStr p.2.contentHash = true →
      ∀ d ∈ files, p.2.contentHash ≠ some (hashOfEntry hash d)) :
    ∀ (ids : List String) (st : ScanState), (∀ i ∈ ids, renameCandidateB cat i = true) →
      ids.foldl (renameStep hash uuid cat files now) st = st := by
  intro ids
  induction ids with
  | nil => intro st _; rfl
  | cons i rest ih =>
      intro st hall
      have hstep : renameStep hash uuid cat files now st i = st := by
        unfold renameStep
        split
        · rfl
        · next oldFile hl =>
            have hi : renameCandidateB cat i = true := hall i (by simp)
            unfold renameCandidateB at hi
            rw [hl] at hi
            dsimp only at hi
            simp only [Bool.and_eq_true, beq_iff_eq] at hi
            have hmem := mem_of_lookupKey cat.files i oldFile hl
            have hnone : renameTarget hash files oldFile = none := by
              unfold renameTarget
              rw [List.find?_eq_none]
              intro d hd
              simp only [Bool.not_eq_true, beq_eq_false_iff_ne, ne_eq]
              exact hnr (i, oldFile) hmem hi.1 hi.2 d hd
            rw [hnone]
      simp only [List.foldl_cons, hstep]
      exact ih st (fun j hj => hall j (by simp [hj]))

end RenameLemmas

section CheckLemmas

/-- The scan state reached by `checkForFileChanges` after its two loops
(just before the final save): load, scan fold, rename fold. -/
def checkStages (hash : String → String) (uuid : Nat → String) (dir : List DirEntry)
    (filt : String → Bool) (disk : CatalogDisk) (now : String) (u : Nat) : ScanState :=
  let l := loadFileCatalog uuid disk now u
  let cat := l.1
  let files := dir.filter (fun e => filt e.name)
  let st0 : ScanState :=
    { disk := l.2.1, u := l.2.2, proc := [], skip := [],
      deleted := cat.files.map Prod.fst, trace := [] }
  let st1 := files.foldl (scanStep hash uuid cat now) st0
  (st1.deleted.filter (renameCandidateB cat)).foldl (renameStep hash uuid cat files now) st1

theorem checkForFileChanges_stages (hash : String → String) (uuid : Nat → String)
    (dir : List DirEntry) (filt : String → Bool) (d : CatalogDisk) (now : String) (u : Nat) :
    (checkForFileChanges hash uuid dir filt d now u).result.filesToProcess =
      (checkStages hash uuid dir filt d now u).proc ∧
    (checkForFileChanges hash uuid dir filt d now u).result.filesToSkip =
      (checkStages hash uuid dir filt d now u).skip ∧
    (checkForFileChanges hash uuid dir filt d now u).result.deletedFileIds =
      (checkStages hash uuid dir filt d now u).deleted ∧
    (checkForFileChanges hash uuid dir filt d now u).trace =
      (checkStages hash uuid dir filt d now u).trace :=
  ⟨rfl, rfl, rfl, rfl⟩

theorem mem_map_filter_iff (es : List DirEntry) (p : DirEntry → Bool) (e : DirEntry)
    (hnames : (es.map DirEntry.name).Nodup) (he : e ∈ es) :
    (e.name ∈ (es.filter p).map DirEntry.name) ↔ p e = true := by
  constructor
  · intro hmem
    obtain ⟨g, hg, hgname⟩ := List.mem_map.mp hmem
    have hge : g ∈ es := List.mem_of_mem_filter hg
    have hpe : p g = true := List.of_mem_filter hg
    have hgeq : g = e := List.inj_on_of_nodup_map hnames hge he hgname
    rw [← hgeq]
    exact hpe
  · intro hpe
    exact List.mem_map.mpr ⟨e, List.mem_filter.mpr ⟨he, hpe⟩, rfl⟩

theorem nodupKeys_unique (fs : List (String × FileMetadata))
    (hk : (fs.map Prod.fst).Nodup) (k : String) (a b : FileMetadata)
    (ha : (k, a) ∈ fs) (hb : (k, b) ∈ fs) : a = b := by
  induction fs with
  | nil => cases ha
  | cons kv rest ih =>
      simp only [List.map_cons, List.nodup_cons] at hk
      rcases List.mem_cons.mp ha with h1 | h1
      · rcases List.mem_cons.mp hb with h2 | h2
        · exact congrArg Prod.snd (h1.trans h2.symm)
        · exfalso
          apply hk.1
          rw [← h1]
          exact List.mem_map.mpr ⟨(k, b), h2, rfl⟩
      · rcases List.mem_cons.mp hb with h2 | h2
        · exfalso
          apply hk.1
          rw [← h2]
          exact List.mem_map.mpr ⟨(k, a), h1, rfl⟩
        · exact ih hk.2 h1 h2

theorem found_id_ne (cat : FileCatalog) (hkeyid : keyIdB cat = true)
    (hkeys : (cat.files.map Prod.fst).Nodup) (rid : String) (r : FileMetadata)
    (hlook : lookupKey cat.files rid = some r) (n : String) (kv : String × FileMetadata)
    (hfound : cat.files.find? (fun p => p.2.name == n) = some kv)
    (hname : r.name ≠ n) : kv.2.id ≠ rid := by
  obtain ⟨k1, v1⟩ := kv
  intro hid
  have hkv_mem : (k1, v1) ∈ cat.files := List.mem_of_find?_eq_some hfound
  have hkvname : v1.name = n := by simpa using List.find?_some hfound
  have hkvkey : v1.id = k1 := by
    have := List.all_eq_true.mp hkeyid (k1, v1) hkv_mem
    simpa using this
  have hrmem : (rid, r) ∈ cat.files := mem_of_lookupKey cat.files rid r hlook
  have hk1 : k1 = rid := by rw [← hkvkey]; exact hid
  subst hk1
  have hvr : v1 = r := nodupKeys_unique cat.files hkeys k1 v1 r hkv_mem hrmem
  rw [hvr] at hkvname
  exact hname hkvname

theorem scanErase_keeps (cat : FileCatalog) (e : DirEntry) (d : List String) (rid : String)
    (hr : rid ∈ d)
    (hid : ∀ kv, cat.files.find? (fun p => p.2.name == e.name) = some kv → kv.2.id ≠ rid) :
    rid ∈ scanErase cat e d := by
  unfold scanErase
  split
  · exact hr
  · split
    · next kv hf =>
        have hne : rid ≠ kv.2.id := fun h => hid kv hf h.symm
        exact (List.mem_erase_of_ne hne).mpr hr
    · exact hr

theorem scan_fold_deleted_keeps (cat : FileCatalog) (rid : String) :
    ∀ (es : List DirEntry) (d : List String), rid ∈ d →
      (∀ e ∈ es, ∀ kv, cat.files.find? (fun p => p.2.name == e.name) = some kv →
        kv.2.id ≠ rid) →
      rid ∈ es.foldl (fun acc e => scanErase cat e acc) d := by
  intro es
  induction es with
  | nil => intro d hr _; exact hr
  | cons e rest ih =>
      intro d hr hall
      simp only [List.foldl_cons]
      refine ih _ (scanErase_keeps cat e d rid hr (hall e (by simp))) ?_
      intro g hg kv hkv
      exact hall g (by simp [hg]) kv hkv

theorem scanErase_nodup (cat : FileCatalog) (e : DirEntry) (d : List String)
    (hd : d.Nodup) : (scanErase cat e d).Nodup := by
  unfold scanErase
  split
  · exact hd
  · split
    · exact hd.erase _
    · exact hd

theorem scan_fold_deleted_nodup (cat : FileCatalog) :
    ∀ (es : List DirEntry) (d : List String), d.Nodup →
      (es.foldl (fun acc e => scanErase cat e acc) d).Nodup := by
  intro es
  induction es with
  | nil => intro d hd; exact hd
  | cons e rest ih =>
      intro d hd
      simp only [List.foldl_cons]
      exact ih _ (scanErase_nodup cat e d hd)

theorem renameStep_fire (hash : String → String) (uuid : Nat → String) (cat : FileCatalog)
    (files : List DirEntry) (now : String) (st : ScanState) (fileId : String)
    (oldf : FileMetadata) (tgt : DirEntry)
    (hl : lookupKey cat.files fileId = some oldf)
    (ht : renameTarget hash files oldf = some tgt) :
    renameStep hash uuid cat files now st fileId =
      { disk := (updateFileMetadata uuid st.disk now st.u fileId (renameUpd tgt.name)).2.1,
        u := (updateFileMetadata uuid st.disk now st.u fileId (renameUpd tgt.name)).2.2,
        proc := if st.proc.contains tgt.name then st.proc else st.proc ++ [tgt.name],
        skip := st.skip, deleted := st.deleted.erase fileId,
        trace := st.trace ++ [.catUpdate fileId (renameUpd tgt.name)] } := by
  unfold renameStep
  rw [hl]
  dsimp only
  rw [ht]

theorem rename_fold_deleted_nodup (hash : String → String) (uuid : Nat → String)
    (cat : FileCatalog) (files : List DirEntry) (now : String) :
    ∀ (ids : List String) (st : ScanState), st.deleted.Nodup →
      (ids.foldl (renameStep hash uuid cat files now) st).deleted.Nodup := by
  intro ids
  induction ids with
  | nil => intro st hd; exact hd
  | cons i rest ih =>
      intro st hd
      simp only [List.foldl_cons]
      refine ih _ ?_
      unfold renameStep
      split
      · exact hd
      · split
        · exact hd
        · dsimp only
          exact hd.erase _

end CheckLemmas

section ClassifyLemmas

theorem goesProcB_matched (hash : String → String) (cat : FileCatalog) (e : DirEntry)
    (size : Nat) (kv : String × FileMetadata) (hstat : e.statSize = some size)
    (hmatch : cat.files.find? (fun p => p.2.name == e.name) = some kv) :
    goesProcB hash cat e = changedB kv.2 size (hashOfEntry hash e) := by
  unfold goesProcB
  rw [hstat]
  dsimp only
  rw [hmatch]

theorem goesSkipB_matched (hash : String → String) (cat : FileCatalog) (e : DirEntry)
    (size : Nat) (kv : String × FileMetadata) (hstat : e.statSize = some size)
    (hmatch : cat.files.find? (fun p => p.2.name == e.name) = some kv) :
    goesSkipB hash cat e = !changedB kv.2 size (hashOfEntry hash e) := by
  unfold goesSkipB
  rw [hstat]
  dsimp only
  rw [hmatch]

theorem scanStep_event_changed (hash : String → String) (uuid : Nat → String)
    (cat : FileCatalog) (now : String) (st : ScanState) (e : DirEntry) (size : Nat)
    (kv : String × FileMetadata) (hstat : e.statSize = some size)
    (hmatch : cat.files.find? (fun p => p.2.name == e.name) = some kv)
    (hch : changedB kv.2 size (hashOfEntry hash e) = true) :
    Event.catUpdate kv.2.id (procUpd size (hashOfEntry hash e) now) ∈
      (scanStep hash uuid cat now st e).trace := by
  unfold scanStep
  rw [hstat]
  dsimp only
  rw [hmatch]
  dsimp only
  simp [hch]

theorem scanStep_event_new (hash : String → String) (uuid : Nat → String)
    (cat : FileCatalog) (now : String) (st : ScanState) (e : DirEntry) (size : Nat)
    (hstat : e.statSize = some size)
    (hnomatch : cat.files.find? (fun p => p.2.name == e.name) = none) :
    Event.addFile e.name ∈ (scanStep hash uuid cat now st e).trace := by
  unfold scanStep
  rw [hstat]
  dsimp only
  rw [hnomatch]
  dsimp only
  simp

end ClassifyLemmas

/-- An unchanged record for `s.txt` and an unmatched manual-upload record
whose stored hash equals `s.txt`'s content hash. -/
def unchangedRecord : FileMetadata :=
  { id := "s1", name := "s.txt", mimeType := "text/plain", size := 1, lastModified := "t0",
    sourceLocation := "manual-upload", contentHash := some "#X",
    processingStatus := "success", chunkCount := 0, chunkIds := [] }

/-- A deleted manual-upload record that rename detection will pair with the
already-matched `s.txt`. -/
def ghostRecord : FileMetadata :=
  { id := "s2", name := "gone.txt", mimeType := "text/plain", size := 1, lastModified := "t0",
    sourceLocation := "manual-upload", contentHash := some "#X",
    processingStatus := "success", chunkCount := 0, chunkIds := [] }

/-- Catalog holding `unchangedRecord` and `ghostRecord`. -/
def dualCat : FileCatalog :=
  { lastUpdated := "t0", files := [("s1", unchangedRecord), ("s2", ghostRecord)] }

/-- Directory holding only `s.txt`, whose content hashes to both records'
stored hash. -/
def dualDir : List DirEntry := [{ name := "s.txt", statSize := some 1, content := some "X" }]

/-- C2: the claim is FALSE on the code — `s.txt` is matched by name, its
record is unchanged, and it is placed in `filesToSkip`; yet rename
detection pairs the unmatched `ghostRecord` with `s.txt` by content hash
and appends `s.txt` to `filesToProcess` as well, breaking the claimed
if-and-only-if classification. -/
theorem c2_classification_counterexample :
    (checkForFileChanges demoHash demoUuid dualDir (fun _ => true) (.current dualCat)
        "t1" 0).result.filesToSkip = ["s.txt"] ∧
    "s.txt" ∈ (checkForFileChanges demoHash demoUuid dualDir (fun _ => true) (.current dualCat)
        "t1" 0).result.filesToProcess ∧
    dualCat.files.find? (fun p => p.2.name == "s.txt") = some ("s1", unchangedRecord) ∧
    changedB unchangedRecord 1
      (hashOfEntry demoHash { name := "s.txt", statSize := some 1, content := some "X" }) =
      false := by
  refine ⟨by decide, by decide, by decide, by decide⟩

/-- C2 (amended): for every file name matched by record name whose stat
succeeds, `checkForFileChanges` places it in `filesToProcess` iff the
stored hash differs, the size differs, or the status is `error`, and places
it in `filesToSkip` iff none of these hold — PROVIDED no manual-upload
record with a stored `contentHash` equal to some observed file's hash
exists (otherwise the rename-detection pass may additionally append the
name to `filesToProcess`).  In the must-process case the size, new
`contentHash` and `pending` status are written through an
`updateFileMetadata` call during the run; the function's final save then
overwrites the persisted catalog with the stale copy loaded at entry, so
skipped records are untouched and processed records also revert. -/
theorem c2_classification_amended
    (hash : String → String) (uuid : Nat → String) (cat : FileCatalog) (dir : List DirEntry)
    (filt : String → Bool) (now : String) (u : Nat) (e : DirEntry) (kv : String × FileMetadata)
    (size : Nat)
    (hnames : ((dir.filter (fun g => filt g.name)).map DirEntry.name).Nodup)
    (hnr : ∀ p ∈ cat.files, p.2.sourceLocation = "manual-upload" →
      truthyStr p.2.contentHash = true →
      ∀ d ∈ dir.filter (fun g => filt g.name), p.2.contentHash ≠ some (hashOfEntry hash d))
    (he : e ∈ dir.filter (fun g => filt g.name))
    (hstat : e.statSize = some size)
    (hmatch : cat.files.find? (fun p => p.2.name == e.name) = some kv) :
    ((e.name ∈ (checkForFileChanges hash uuid dir filt (.current cat) now u).result.filesToProcess)
      ↔ changedB kv.2 size (hashOfEntry hash e) = true) ∧
    ((e.name ∈ (checkForFileChanges hash uuid dir filt (.current cat) now u).result.filesToSkip)
      ↔ changedB kv.2 size (hashOfEntry hash e) = false) ∧
    (changedB kv.2 size (hashOfEntry hash e) = true →
      Event.catUpdate kv.2.id (procUpd size (hashOfEntry hash e) now) ∈
        (checkForFileChanges hash uuid dir filt (.current cat) now u).trace) ∧
    (checkForFileChanges hash uuid dir filt (.current cat) now u).disk =
      .current (savedCat cat now) := by
  obtain ⟨hp, hs, hd, htr⟩ := checkForFileChanges_stages hash uuid dir filt (.current cat) now u
  have hst2 : checkStages hash uuid dir filt (.current cat) now u =
      (dir.filter (fun g => filt g.name)).foldl (scanStep hash uuid cat now)
        { disk := .current cat, u := u, proc := [], skip := [],
          deleted := cat.files.map Prod.fst, trace := [] } := by
    unfold checkStages
    exact rename_fold_id hash uuid cat (dir.filter (fun g => filt g.name)) now hnr _ _
      (fun i hi => List.of_mem_filter hi)
  refine ⟨?_, ?_, ?_, rfl⟩
  · rw [hp, hst2, scan_fold_proc]
    simp only [List.nil_append]
    rw [mem_map_filter_iff _ _ e hnames he]
    rw [goesProcB_matched hash cat e size kv hstat hmatch]
  · rw [hs, hst2, scan_fold_skip]
    simp only [List.nil_append]
    rw [mem_map_filter_iff _ _ e hnames he]
    rw [goesSkipB_matched hash cat e size kv hstat hmatch]
    cases changedB kv.2 size (hashOfEntry hash e) <;> simp
  · intro hch
    rw [htr, hst2]
    obtain ⟨l1, l2, hsplit⟩ := List.append_of_mem he
    rw [hsplit, List.foldl_append, List.foldl_cons]
    exact scan_fold_trace_mono hash uuid cat now l2 _ _
      (scanStep_event_changed hash uuid cat now _ e size kv hstat hmatch hch)

/-- A changed record scenario for the C2 witness. -/
def chgRecord : FileMetadata :=
  { id := "m1", name := "m.txt", mimeType := "text/plain", size := 1, lastModified := "t0",
    sourceLocation := "manual-upload", contentHash := some "#Y",
    processingStatus := "success", chunkCount := 0, chunkIds := [] }

/-- Catalog holding only `chgRecord`. -/
def chgCat : FileCatalog := { lastUpdated := "t0", files := [("m1", chgRecord)] }

/-- Directory where `m.txt` now hashes differently from the stored hash. -/
def chgDir : List DirEntry := [{ name := "m.txt", statSize := some 1, content := some "Z" }]

/-- C2 witness: the amended theorem applied at a concrete changed file. -/
theorem c2_classification_witness :
    "m.txt" ∈ (checkForFileChanges demoHash demoUuid chgDir (fun _ => true) (.current chgCat)
      "t1" 0).result.filesToProcess := by
  have h := c2_classification_amended demoHash demoUuid chgCat chgDir (fun _ => true) "t1" 0
    { name := "m.txt", statSize := some 1, content := some "Z" } ("m1", chgRecord) 1
    (by decide) (by decide) (by decide) (by decide) (by decide)
  exact h.1.mpr (by decide)

theorem containsStr_mem (l : List String) (a : String) (h : l.contains a = true) : a ∈ l :=
  List.elem_iff.mp h

/-- The renamed manual-upload record of the C6 scenarios: named `gone.txt`
in the catalog while the directory now holds the same bytes as `b.txt`. -/
def renamedRecord : FileMetadata :=
  { id := "r1", name := "gone.txt", mimeType := "text/plain", size := 1, lastModified := "t0",
    sourceLocation := "manual-upload", contentHash := some "#X",
    processingStatus := "success", chunkCount := 1, chunkIds := ["v9"] }

/-- Catalog holding only `renamedRecord`. -/
def renamedCat : FileCatalog := { lastUpdated := "t0", files := [("r1", renamedRecord)] }

/-- Directory holding `b.txt`, whose bytes hash to `renamedRecord`'s stored
hash. -/
def renamedDir : List DirEntry := [{ name := "b.txt", statSize := some 1, content := some "X" }]

/-- Records of the persisted state bearing a given name (zero when the
state is not a current-shape catalog). -/
def recordsNamed (d : CatalogDisk) (n : String) : Nat :=
  match d with
  | .current c => (c.files.filter (fun kv => kv.2.name == n)).length
  | _ => 0

/-- C6: the claim is FALSE on the code in two ways.  The scan loop has
already created a brand-new catalog record for the hash-matching observed
file `b.txt` before rename detection runs, so just before the final save
the catalog holds TWO records named `b.txt` (rename-plus-add, not a pure
rename); and the final save then restores the catalog loaded at entry, so
the renamed record still carries its old name `gone.txt` in the persisted
catalog. -/
theorem c6_rename_counterexample :
    recordsNamed (checkForFileChangesCore demoHash demoUuid renamedDir (fun _ => true)
      (.current renamedCat) "t1" 0).preSaveDisk "b.txt" = 2 ∧
    (checkForFileChanges demoHash demoUuid renamedDir (fun _ => true) (.current renamedCat)
      "t1" 0).disk = .current (savedCat renamedCat "t1") ∧
    diskLookup (checkForFileChanges demoHash demoUuid renamedDir (fun _ => true)
      (.current renamedCat) "t1" 0).disk "r1" = some renamedRecord := by
  refine ⟨by decide, rfl, by decide⟩

/-- C6 (amended): for every manual-upload record with a truthy stored
`contentHash` whose name matches no observed file, when some observed
file's recomputed hash equals the stored hash, `checkForFileChanges`
excludes the record's id from the returned `deletedFileIds`, puts the
matched file's name in `filesToProcess`, and issues the rename update
(new name, `pending`) through `updateFileMetadata` — the record's id is
preserved.  However, when the matched file itself matched no record by
name, the scan loop has already invoked `addFileToFileCatalog` for it,
creating an additional new record (rename-plus-add rather than a pure
rename); and the function's final save overwrites the persisted catalog
with the copy loaded at entry, so neither the rename nor the added record
survives the call. -/
theorem c6_rename_detection_amended
    (hash : String → String) (uuid : Nat → String) (cat : FileCatalog) (dir : List DirEntry)
    (filt : String → Bool) (now : String) (u : Nat) (rid : String) (r : FileMetadata)
    (tgt : DirEntry)
    (hkeyid : keyIdB cat = true)
    (hkeys : (cat.files.map Prod.fst).Nodup)
    (hlook : lookupKey cat.files rid = some r)
    (hman : r.sourceLocation = "manual-upload")
    (htruthy : truthyStr r.contentHash = true)
    (hunmatched : ∀ d ∈ dir.filter (fun g => filt g.name), r.name ≠ d.name)
    (htgt : renameTarget hash (dir.filter (fun g => filt g.name)) r = some tgt) :
    rid ∉ (checkForFileChanges hash uuid dir filt (.current cat) now u).result.deletedFileIds ∧
    tgt.name ∈
      (checkForFileChanges hash uuid dir filt (.current cat) now u).result.filesToProcess ∧
    Event.catUpdate rid (renameUpd tgt.name) ∈
      (checkForFileChanges hash uuid dir filt (.current cat) now u).trace ∧
    (∀ size, tgt.statSize = some size →
      cat.files.find? (fun p => p.2.name == tgt.name) = none →
      Event.addFile tgt.name ∈
        (checkForFileChanges hash uuid dir filt (.current cat) now u).trace) ∧
    (checkForFileChanges hash uuid dir filt (.current cat) now u).disk =
      .current (savedCat cat now) := by
  obtain ⟨hp, hs, hd, htr⟩ := checkForFileChanges_stages hash uuid dir filt (.current cat) now u
  have hcs : checkStages hash uuid dir filt (.current cat) now u =
      (((dir.filter (fun g => filt g.name)).foldl (scanStep hash uuid cat now)
          { disk := .current cat, u := u, proc := [], skip := [],
            deleted := cat.files.map Prod.fst, trace := [] }).deleted.filter
        (renameCandidateB cat)).foldl
        (renameStep hash uuid cat (dir.filter (fun g => filt g.name)) now)
        ((dir.filter (fun g => filt g.name)).foldl (scanStep hash uuid cat now)
          { disk := .current cat, u := u, proc := [], skip := [],
            deleted := cat.files.map Prod.fst, trace := [] }) := rfl
  have hrmem : (rid, r) ∈ cat.files := mem_of_lookupKey cat.files rid r hlook
  have hrid0 : rid ∈ cat.files.map Prod.fst := List.mem_map.mpr ⟨(rid, r), hrmem, rfl⟩
  have hnotouch : ∀ e ∈ dir.filter (fun g => filt g.name),
      ∀ kv, cat.files.find? (fun p => p.2.name == e.name) = some kv → kv.2.id ≠ rid := by
    intro e hefiles kv hkv
    exact found_id_ne cat hkeyid hkeys rid r hlook e.name kv hkv (hunmatched e hefiles)
  have hridscan : rid ∈ ((dir.filter (fun g => filt g.name)).foldl (scanStep hash uuid cat now)
      { disk := .current cat, u := u, proc := [], skip := [],
        deleted := cat.files.map Prod.fst, trace := [] }).deleted := by
    rw [scan_fold_deleted]
    exact scan_fold_deleted_keeps cat rid _ _ hrid0 hnotouch
  have hnodup1 : ((dir.filter (fun g => filt g.name)).foldl (scanStep hash uuid cat now)
      { disk := .current cat, u := u, proc := [], skip := [],
        deleted := cat.files.map Prod.fst, trace := [] }).deleted.Nodup := by
    rw [scan_fold_deleted]
    exact scan_fold_deleted_nodup cat _ _ hkeys
  have hcand : renameCandidateB cat rid = true := by
    unfold renameCandidateB
    rw [hlook]
    dsimp only
    simp [hman, htruthy]
  have hridpot : rid ∈ ((dir.filter (fun g => filt g.name)).foldl (scanStep hash uuid cat now)
      { disk := .current cat, u := u, proc := [], skip := [],
        deleted := cat.files.map Prod.fst, trace := [] }).deleted.filter
        (renameCandidateB cat) :=
    List.mem_filter.mpr ⟨hridscan, hcand⟩
  obtain ⟨p1, p2, hpsplit⟩ := List.append_of_mem hridpot
  have hfirelit := renameStep_fire hash uuid cat (dir.filter (fun g => filt g.name)) now
    (p1.foldl (renameStep hash uuid cat (dir.filter (fun g => filt g.name)) now)
      ((dir.filter (fun g => filt g.name)).foldl (scanStep hash uuid cat now)
        { disk := .current cat, u := u, proc := [], skip := [],
          deleted := cat.files.map Prod.fst, trace := [] }))
    rid r tgt hlook htgt
  have hstages2 : checkStages hash uuid dir filt (.current cat) now u =
      p2.foldl (renameStep hash uuid cat (dir.filter (fun g => filt g.name)) now)
        (renameStep hash uuid cat (dir.filter (fun g => filt g.name)) now
          (p1.foldl (renameStep hash uuid cat (dir.filter (fun g => filt g.name)) now)
            ((dir.filter (fun g => filt g.name)).foldl (scanStep hash uuid cat now)
              { disk := .current cat, u := u, proc := [], skip := [],
                deleted := cat.files.map Prod.fst, trace := [] })) rid) := by
    rw [hcs, hpsplit, List.foldl_append, List.foldl_cons]
  refine ⟨?_, ?_, ?_, ?_, rfl⟩
  · rw [hd, hstages2]
    intro hmem
    have hmem2 := rename_fold_deleted_shrinks hash uuid cat _ now p2 _ rid hmem
    rw [hfirelit] at hmem2
    dsimp only at hmem2
    have hnodupMid : (p1.foldl (renameStep hash uuid cat (dir.filter (fun g => filt g.name)) now)
        ((dir.filter (fun g => filt g.name)).foldl (scanStep hash uuid cat now)
          { disk := .current cat, u := u, proc := [], skip := [],
            deleted := cat.files.map Prod.fst, trace := [] })).deleted.Nodup :=
      rename_fold_deleted_nodup hash uuid cat _ now p1 _ hnodup1
    have := (hnodupMid.mem_erase_iff.mp hmem2).1
    exact this rfl
  · rw [hp, hstages2]
    refine rename_fold_proc_mono hash uuid cat _ now p2 _ _ ?_
    rw [hfirelit]
    dsimp only
    by_cases hc : (p1.foldl (renameStep hash uuid cat (dir.filter (fun g => filt g.name)) now)
        ((dir.filter (fun g => filt g.name)).foldl (scanStep hash uuid cat now)
          { disk := .current cat, u := u, proc := [], skip := [],
            deleted := cat.files.map Prod.fst, trace := [] })).proc.contains tgt.name = true
    · simp only [hc, if_true]
      exact containsStr_mem _ _ hc
    · simp only [hc, Bool.false_eq_true, if_false]
      simp
  · rw [htr, hstages2]
    refine rename_fold_trace_mono hash uuid cat _ now p2 _ _ ?_
    rw [hfirelit]
    dsimp only
    simp
  · intro size hstat2 hnomatch
    rw [htr, hcs]
    refine rename_fold_trace_mono hash uuid cat _ now _ _ _ ?_
    have htgtmem : tgt ∈ dir.filter (fun g => filt g.name) := by
      unfold renameTarget at htgt
      exact List.mem_of_find?_eq_some htgt
    obtain ⟨l1, l2, hsplit⟩ := List.append_of_mem htgtmem
    rw [hsplit, List.foldl_append, List.foldl_cons]
    exact scan_fold_trace_mono hash uuid cat now l2 _ _
      (scanStep_event_new hash uuid cat now _ tgt size hstat2 hnomatch)

/-- C6 witness: the amended theorem applied to the concrete rename
scenario. -/
theorem c6_rename_detection_witness :
    "r1" ∉ (checkForFileChanges demoHash demoUuid renamedDir (fun _ => true)
      (.current renamedCat) "t1" 0).result.deletedFileIds ∧
    "b.txt" ∈ (checkForFileChanges demoHash demoUuid renamedDir (fun _ => true)
      (.current renamedCat) "t1" 0).result.filesToProcess := by
  have h := c6_rename_detection_amended demoHash demoUuid renamedCat renamedDir (fun _ => true)
    "t1" 0 "r1" renamedRecord { name := "b.txt", statSize := some 1, content := some "X" }
    (by decide) (by decide) (by decide) (by decide) (by decide) (by decide) (by decide)
  exact ⟨h.1, h.2.1⟩

section IngestLemmas

/-- The stringified error the catch block of the per-file ingestion
procedure receives, when the chain — optional vector-store delete, document
load, split, vector-store add — throws.  Empty extraction is not a thrown
error (the code handles it inline), so it yields `none` here. -/
def fileChainErr (col : IngestCollab) (fileName : String) (r : FileMetadata) : Option String :=
  match (if r.chunkIds.length > 0 then col.storeDelete r.chunkIds else Except.ok ()) with
  | .error e => some e
  | .ok _ =>
    match col.loadDocs fileName with
    | .error e => some e
    | .ok docs =>
      if docs.length == 0 then none
      else
        match col.splitDocs docs with
        | .error e => some e
        | .ok chunks =>
          match col.addDocs chunks with
          | .error e => some e
          | .ok _ => none

/-- The chunks and returned ids of a fully successful per-file chain. -/
def fileChainOk (col : IngestCollab) (fileName : String) (r : FileMetadata) :
    Option (List String × List String) :=
  match (if r.chunkIds.length > 0 then col.storeDelete r.chunkIds else Except.ok ()) with
  | .error _ => none
  | .ok _ =>
    match col.loadDocs fileName with
    | .error _ => none
    | .ok docs =>
      if docs.length == 0 then none
      else
        match col.splitDocs docs with
        | .error _ => none
        | .ok chunks =>
          match col.addDocs chunks with
          | .error _ => none
          | .ok ids => some (chunks, ids)

theorem catUpdateOn_disk (uuid : Nat → String) (now : String) (st : IngestState)
    (fileId : String) (upd : MetaUpdates) (c : FileCatalog) (hdisk : st.disk = .current c) :
    ∃ c2, (catUpdateOn uuid now st fileId upd).disk = .current c2 ∧
      (∀ k, k ≠ fileId → lookupKey c2.files k = lookupKey c.files k) ∧
      (∀ m, lookupKey c.files fileId = some m →
        lookupKey c2.files fileId = some (applyUpdates now m upd)) := by
  unfold catUpdateOn
  dsimp only
  rw [hdisk, updateFileMetadata_current]
  cases h : lookupKey c.files fileId with
  | none =>
      refine ⟨c, rfl, fun k _ => rfl, fun m hm => ?_⟩
      exact Option.noConfusion hm
  | some m =>
      refine ⟨_, rfl, fun k hk => lookupKey_setKey_ne c.files fileId k _ hk, fun m2 hm2 => ?_⟩
      obtain rfl : m = m2 := Option.some.inj hm2
      exact lookupKey_setKey_self c.files fileId _

theorem processFile_disk (col : IngestCollab) (uuid : Nat → String) (snapshot : FileCatalog)
    (now : String) (st : IngestState) (fileName : String) (c : FileCatalog)
    (hdisk : st.disk = .current c) :
    ∃ c2, (processFile col uuid snapshot now st fileName).disk = .current c2 ∧
      ∀ k, (∀ fm, (snapshot.files.map Prod.snd).find? (fun f => f.name == fileName) = some fm →
        fm.id ≠ k) → lookupKey c2.files k = lookupKey c.files k := by
  unfold processFile
  cases hfind : (snapshot.files.map Prod.snd).find? (fun f => f.name == fileName) with
  | none => exact ⟨c, hdisk, fun k _ => rfl⟩
  | some fm =>
      dsimp only
      have hcont : ∀ (st2 : IngestState) (c2 : FileCatalog), st2.disk = .current c2 →
          ∃ c3, ((match col.loadDocs fileName with
            | .error e => catUpdateOn uuid now st2 fm.id (errorUpd now e)
            | .ok docs =>
              if docs.length == 0 then
                catUpdateOn uuid now st2 fm.id (errorUpd now "No content extracted from file")
              else
                match col.splitDocs docs with
                | .error e => catUpdateOn uuid now st2 fm.id (errorUpd now e)
                | .ok chunks =>
                  let st3 := { st2 with trace := st2.trace ++ [Event.vsAdd chunks] }
                  match col.addDocs chunks with
                  | .error e => catUpdateOn uuid now st3 fm.id (errorUpd now e)
                  | .ok ids =>
                      catUpdateOn uuid now st3 fm.id (successUpd now chunks.length ids)) :
              IngestState).disk = .current c3 ∧
            ∀ k, k ≠ fm.id → lookupKey c3.files k = lookupKey c2.files k := by
        intro st2 c2 h2
        cases hload : col.loadDocs fileName with
        | error e =>
            obtain ⟨c3, hd3, hf3, _⟩ := catUpdateOn_disk uuid now st2 fm.id _ c2 h2
            exact ⟨c3, hd3, hf3⟩
        | ok docs =>
            by_cases hlen : (docs.length == 0) = true
            · simp only [hlen, if_true]
              obtain ⟨c3, hd3, hf3, _⟩ := catUpdateOn_disk uuid now st2 fm.id _ c2 h2
              exact ⟨c3, hd3, hf3⟩
            · simp only [hlen, if_false, Bool.false_eq_true]
              cases hsplit : col.splitDocs docs with
              | error e =>
                  obtain ⟨c3, hd3, hf3, _⟩ := catUpdateOn_disk uuid now st2 fm.id _ c2 h2
                  exact ⟨c3, hd3, hf3⟩
              | ok chunks =>
                  dsimp only
                  cases haddc : col.addDocs chunks with
                  | error e =>
                      obtain ⟨c3, hd3, hf3, _⟩ := catUpdateOn_disk uuid now
                        { st2 with trace := st2.trace ++ [Event.vsAdd chunks] } fm.id _ c2 h2
                      exact ⟨c3, hd3, hf3⟩
                  | ok ids =>
                      obtain ⟨c3, hd3, hf3, _⟩ := catUpdateOn_disk uuid now
                        { st2 with trace := st2.trace ++ [Event.vsAdd chunks] } fm.id _ c2 h2
                      exact ⟨c3, hd3, hf3⟩
      by_cases hpos : (fm.chunkIds.length > 0)
      · simp only [if_pos hpos]
        cases hdel : col.storeDelete fm.chunkIds with
        | error e =>
            dsimp only
            obtain ⟨c3, hd3, hf3, _⟩ := catUpdateOn_disk uuid now
              { st with trace := st.trace ++ [Event.vsDelete fm.chunkIds] } fm.id
              (errorUpd now e) c hdisk
            exact ⟨c3, hd3, fun k hk => hf3 k (Ne.symm (hk fm rfl))⟩
        | ok w =>
            dsimp only
            obtain ⟨cMid, hdMid, hfMid, _⟩ := catUpdateOn_disk uuid now
              { st with trace := st.trace ++ [Event.vsDelete fm.chunkIds] } fm.id
              resetUpd c hdisk
            obtain ⟨c3, hd3, hf3⟩ := hcont _ cMid hdMid
            refine ⟨c3, hd3, fun k hk => ?_⟩
            rw [hf3 k (Ne.symm (hk fm rfl)), hfMid k (Ne.symm (hk fm rfl))]
      · simp only [if_neg hpos]
        obtain ⟨c3, hd3, hf3⟩ := hcont st c hdisk
        exact ⟨c3, hd3, fun k hk => hf3 k (Ne.symm (hk fm rfl))⟩

theorem processFile_err (col : IngestCollab) (uuid : Nat → String) (snapshot : FileCatalog)
    (now : String) (st : IngestState) (fileName : String) (fm : FileMetadata)
    (c : FileCatalog) (m : FileMetadata) (e : String)
    (hdisk : st.disk = .current c)
    (hfind : (snapshot.files.map Prod.snd).find? (fun f => f.name == fileName) = some fm)
    (hm : lookupKey c.files fm.id = some m)
    (herr : fileChainErr col fileName fm = some e) :
    ∃ c2 m2, (processFile col uuid snapshot now st fileName).disk = .current c2 ∧
      lookupKey c2.files fm.id = some m2 ∧
      m2.processingStatus = "error" ∧ m2.errorMessage = some e ∧ m2.processedAt = some now := by
  unfold processFile
  rw [hfind]
  dsimp only
  unfold fileChainErr at herr
  have hcont : ∀ (st2 : IngestState) (cMid : FileCatalog) (mMid : FileMetadata),
      st2.disk = .current cMid → lookupKey cMid.files fm.id = some mMid →
      (match col.loadDocs fileName with
        | .error e => some e
        | .ok docs =>
          if docs.length == 0 then none
          else
            match col.splitDocs docs with
            | .error e => some e
            | .ok chunks =>
              match col.addDocs chunks with
              | .error e => some e
              | .ok _ => none) = some e →
      ∃ c2 m2, ((match col.loadDocs fileName with
        | .error e => catUpdateOn uuid now st2 fm.id (errorUpd now e)
        | .ok docs =>
          if docs.length == 0 then
            catUpdateOn uuid now st2 fm.id (errorUpd now "No content extracted from file")
          else
            match col.splitDocs docs with
            | .error e => catUpdateOn uuid now st2 fm.id (errorUpd now e)
            | .ok chunks =>
              let st3 := { st2 with trace := st2.trace ++ [Event.vsAdd chunks] }
              match col.addDocs chunks with
              | .error e => catUpdateOn uuid now st3 fm.id (errorUpd now e)
              | .ok ids =>
                  catUpdateOn uuid now st3 fm.id (successUpd now chunks.length ids)) :
          IngestState).disk = .current c2 ∧
        lookupKey c2.files fm.id = some m2 ∧
        m2.processingStatus = "error" ∧ m2.errorMessage = some e ∧
        m2.processedAt = some now := by
    intro st2 cMid mMid h2 hmMid hErrCont
    cases hload : col.loadDocs fileName with
    | error e1 =>
        rw [hload] at hErrCont
        dsimp only at hErrCont
        obtain rfl : e1 = e := Option.some.inj hErrCont
        obtain ⟨c2, hd2, _, hset⟩ := catUpdateOn_disk uuid now st2 fm.id (errorUpd now e1)
          cMid h2
        exact ⟨c2, _, hd2, hset mMid hmMid, rfl, rfl, rfl⟩
    | ok docs =>
        rw [hload] at hErrCont
        dsimp only at hErrCont
        by_cases hempty : (docs.length == 0) = true
        · rw [if_pos hempty] at hErrCont
          cases hErrCont
        · rw [if_neg hempty] at hErrCont
          simp only [hempty, if_false, Bool.false_eq_true]
          cases hsplit : col.splitDocs docs with
          | error e1 =>
              rw [hsplit] at hErrCont
              dsimp only at hErrCont
              obtain rfl : e1 = e := Option.some.inj hErrCont
              obtain ⟨c2, hd2, _, hset⟩ := catUpdateOn_disk uuid now st2 fm.id (errorUpd now e1)
                cMid h2
              exact ⟨c2, _, hd2, hset mMid hmMid, rfl, rfl, rfl⟩
          | ok chunks =>
              rw [hsplit] at hErrCont
              dsimp only at hErrCont ⊢
              cases haddc : col.addDocs chunks with
              | error e1 =>
                  rw [haddc] at hErrCont
                  dsimp only at hErrCont
                  obtain rfl : e1 = e := Option.some.inj hErrCont
                  obtain ⟨c2, hd2, _, hset⟩ := catUpdateOn_disk uuid now
                    { st2 with trace := st2.trace ++ [Event.vsAdd chunks] } fm.id
                    (errorUpd now e1) cMid h2
                  exact ⟨c2, _, hd2, hset mMid hmMid, rfl, rfl, rfl⟩
              | ok ids =>
                  rw [haddc] at hErrCont
                  cases hErrCont
  by_cases hpos : (fm.chunkIds.length > 0)
  · rw [if_pos hpos] at herr
    simp only [if_pos hpos]
    cases hdel : col.storeDelete fm.chunkIds with
    | error e1 =>
        rw [hdel] at herr
        dsimp only at herr
        obtain rfl : e1 = e := Option.some.inj herr
        dsimp only
        obtain ⟨c2, hd2, _, hset⟩ := catUpdateOn_disk uuid now
          { st with trace := st.trace ++ [Event.vsDelete fm.chunkIds] } fm.id
          (errorUpd now e1) c hdisk
        exact ⟨c2, _, hd2, hset m hm, rfl, rfl, rfl⟩
    | ok w =>
        rw [hdel] at herr
        dsimp only at herr
        dsimp only
        obtain ⟨cMid, hdMid, _, hsetMid⟩ := catUpdateOn_disk uuid now
          { st with trace := st.trace ++ [Event.vsDelete fm.chunkIds] } fm.id
          resetUpd c hdisk
        exact hcont _ cMid (applyUpdates now m resetUpd) hdMid (hsetMid m hm) herr
  · rw [if_neg hpos] at herr
    dsimp only at herr
    simp only [if_neg hpos]
    exact hcont st c m hdisk hm herr

theorem processFile_ok (col : IngestCollab) (uuid : Nat → String) (snapshot : FileCatalog)
    (now : String) (st : IngestState) (fileName : String) (fm : FileMetadata)
    (c : FileCatalog) (m : FileMetadata) (chunks ids : List String)
    (hdisk : st.disk = .current c)
    (hfind : (snapshot.files.map Prod.snd).find? (fun f => f.name == fileName) = some fm)
    (hm : lookupKey c.files fm.id = some m)
    (hok : fileChainOk col fileName fm = some (chunks, ids)) :
    ∃ c2 m2, (processFile col uuid snapshot now st fileName).disk = .current c2 ∧
      lookupKey c2.files fm.id = some m2 ∧
      m2.processingStatus = "success" ∧ m2.chunkCount = chunks.length ∧
      m2.chunkIds = ids ∧ m2.processedAt = some now := by
  unfold processFile
  rw [hfind]
  dsimp only
  unfold fileChainOk at hok
  have hcont : ∀ (st2 : IngestState) (cMid : FileCatalog) (mMid : FileMetadata),
      st2.disk = .current cMid → lookupKey cMid.files fm.id = some mMid →
      (match col.loadDocs fileName with
        | .error _ => none
        | .ok docs =>
          if docs.length == 0 then none
          else
            match col.splitDocs docs with
            | .error _ => none
            | .ok chunks =>
              match col.addDocs chunks with
              | .error _ => none
              | .ok ids => some (chunks, ids)) = some (chunks, ids) →
      ∃ c2 m2, ((match col.loadDocs fileName with
        | .error e => catUpdateOn uuid now st2 fm.id (errorUpd now e)
        | .ok docs =>
          if docs.length == 0 then
            catUpdateOn uuid now st2 fm.id (errorUpd now "No content extracted from file")
          else
            match col.splitDocs docs with
            | .error e => catUpdateOn uuid now st2 fm.id (errorUpd now e)
            | .ok chunks =>
              let st3 := { st2 with trace := st2.trace ++ [Event.vsAdd chunks] }
              match col.addDocs chunks with
              | .error e => catUpdateOn uuid now st3 fm.id (errorUpd now e)
              | .ok ids =>
                  catUpdateOn uuid now st3 fm.id (successUpd now chunks.length ids)) :
          IngestState).disk = .current c2 ∧
        lookupKey c2.files fm.id = some m2 ∧
        m2.processingStatus = "success" ∧ m2.chunkCount = chunks.length ∧
        m2.chunkIds = ids ∧ m2.processedAt = some now := by
    intro st2 cMid mMid h2 hmMid hOkCont
    cases hload : col.loadDocs fileName with
    | error e1 =>
        rw [hload] at hOkCont
        cases hOkCont
    | ok docs =>
        rw [hload] at hOkCont
        dsimp only at hOkCont
        by_cases hempty : (docs.length == 0) = true
        · rw [if_pos hempty] at hOkCont
          cases hOkCont
        · rw [if_neg hempty] at hOkCont
          simp only [hempty, if_false, Bool.false_eq_true]
          cases hsplit : col.splitDocs docs with
          | error e1 =>
              rw [hsplit] at hOkCont
              cases hOkCont
          | ok chunks1 =>
              rw [hsplit] at hOkCont
              dsimp only at hOkCont ⊢
              cases haddc : col.addDocs chunks1 with
              | error e1 =>
                  rw [haddc] at hOkCont
                  cases hOkCont
              | ok ids1 =>
                  rw [haddc] at hOkCont
                  dsimp only at hOkCont
                  have hpair : chunks1 = chunks ∧ ids1 = ids := by
                    have := Option.some.inj hOkCont
                    exact ⟨congrArg Prod.fst this, congrArg Prod.snd this⟩
                  obtain ⟨rfl, rfl⟩ := hpair
                  obtain ⟨c2, hd2, _, hset⟩ := catUpdateOn_disk uuid now
                    { st2 with trace := st2.trace ++ [Event.vsAdd chunks1] } fm.id
                    (successUpd now chunks1.length ids1) cMid h2
                  exact ⟨c2, _, hd2, hset mMid hmMid, rfl, rfl, rfl, rfl⟩
  by_cases hpos : (fm.chunkIds.length > 0)
  · rw [if_pos hpos] at hok
    simp only [if_pos hpos]
    cases hdel : col.storeDelete fm.chunkIds with
    | error e1 =>
        rw [hdel] at hok
        cases hok
    | ok w =>
        rw [hdel] at hok
        dsimp only at hok
        dsimp only
        obtain ⟨cMid, hdMid, _, hsetMid⟩ := catUpdateOn_disk uuid now
          { st with trace := st.trace ++ [Event.vsDelete fm.chunkIds] } fm.id
          resetUpd c hdisk
        exact hcont _ cMid (applyUpdates now m resetUpd) hdMid (hsetMid m hm) hok
  · rw [if_neg hpos] at hok
    dsimp only at hok
    simp only [if_neg hpos]
    exact hcont st c m hdisk hm hok

theorem ingest_fold_frame (col : IngestCollab) (uuid : Nat → String) (snapshot : FileCatalog)
    (now : String) :
    ∀ (files : List String) (st : IngestState) (c : FileCatalog) (k : String),
      st.disk = .current c →
      (∀ g ∈ files, ∀ fg,
        (snapshot.files.map Prod.snd).find? (fun f => f.name == g) = some fg → fg.id ≠ k) →
      ∃ c2, (ingestFiles col uuid snapshot now files st).disk = .current c2 ∧
        lookupKey c2.files k = lookupKey c.files k := by
  intro files
  induction files with
  | nil => intro st c k hdisk _; exact ⟨c, hdisk, rfl⟩
  | cons g rest ih =>
      intro st c k hdisk hall
      obtain ⟨c1, hd1, hf1⟩ := processFile_disk col uuid snapshot now st g c hdisk
      obtain ⟨c2, hd2, hf2⟩ := ih (processFile col uuid snapshot now st g) c1 k hd1
        (fun g2 hg2 => hall g2 (by simp [hg2]))
      refine ⟨c2, hd2, ?_⟩
      rw [hf2, hf1 k (hall g (by simp))]

theorem find_name_rec (snapshot : FileCatalog) (n : String) (fm : FileMetadata)
    (h : (snapshot.files.map Prod.snd).find? (fun f => f.name == n) = some fm) :
    fm.name = n := by
  simpa using List.find?_some h

theorem value_id_inj (snapshot : FileCatalog) (hkeyid : keyIdB snapshot = true)
    (hkeys : (snapshot.files.map Prod.fst).Nodup) (a b : FileMetadata)
    (ha : a ∈ snapshot.files.map Prod.snd) (hb : b ∈ snapshot.files.map Prod.snd)
    (hid : a.id = b.id) : a = b := by
  obtain ⟨kva, hkva, hva⟩ := List.mem_map.mp ha
  obtain ⟨kvb, hkvb, hvb⟩ := List.mem_map.mp hb
  obtain ⟨ka, va⟩ := kva
  obtain ⟨kb, vb⟩ := kvb
  dsimp only at hva hvb
  subst hva
  subst hvb
  have h1 : va.id = ka := by simpa using List.all_eq_true.mp hkeyid (ka, va) hkva
  have h2 : vb.id = kb := by simpa using List.all_eq_true.mp hkeyid (kb, vb) hkvb
  have hk : ka = kb := by rw [← h1, ← h2, hid]
  subst hk
  exact nodupKeys_unique snapshot.files hkeys ka va vb hkva hkvb

theorem distinct_records (snapshot : FileCatalog) (hkeyid : keyIdB snapshot = true)
    (hkeys : (snapshot.files.map Prod.fst).Nodup) (g1 g2 : String) (f1 f2 : FileMetadata)
    (h1 : (snapshot.files.map Prod.snd).find? (fun f => f.name == g1) = some f1)
    (h2 : (snapshot.files.map Prod.snd).find? (fun f => f.name == g2) = some f2)
    (hne : g1 ≠ g2) : f1.id ≠ f2.id := by
  intro hid
  have heq : f1 = f2 := value_id_inj snapshot hkeyid hkeys f1 f2
    (List.mem_of_find?_eq_some h1) (List.mem_of_find?_eq_some h2) hid
  apply hne
  rw [← find_name_rec snapshot g1 f1 h1, ← find_name_rec snapshot g2 f2 h2, heq]

/-- C9: a thrown exception while ingesting one file (vector-store delete,
document load, split, or vector-store add) never aborts the batch: the
failing file's record is updated to `processingStatus = "error"` with the
stringified error and `processedAt = now`, and each later file of the list
whose own chain succeeds still ends with a `success` record carrying its
chunk count and its vector-store ids. -/
theorem c9_error_isolation (col : IngestCollab) (uuid : Nat → String)
    (snapshot : FileCatalog) (now : String) (pre post : List String) (fileName : String)
    (c0 : FileCatalog) (u : Nat) (t0 : List Event) (fm m : FileMetadata) (e : String)
    (hkeyid : keyIdB snapshot = true)
    (hkeys : (snapshot.files.map Prod.fst).Nodup)
    (hnodup : (pre ++ fileName :: post).Nodup)
    (hfind : (snapshot.files.map Prod.snd).find? (fun f => f.name == fileName) = some fm)
    (hm : lookupKey c0.files fm.id = some m)
    (herr : fileChainErr col fileName fm = some e) :
    (∃ c2 m2, (ingestFiles col uuid snapshot now (pre ++ fileName :: post)
        { disk := .current c0, u := u, trace := t0 }).disk = .current c2 ∧
      lookupKey c2.files fm.id = some m2 ∧
      m2.processingStatus = "error" ∧ m2.errorMessage = some e ∧
      m2.processedAt = some now) ∧
    (∀ g ∈ post, ∀ fg mg chunks ids,
      (snapshot.files.map Prod.snd).find? (fun f => f.name == g) = some fg →
      lookupKey c0.files fg.id = some mg →
      fileChainOk col g fg = some (chunks, ids) →
      ∃ c2 m2, (ingestFiles col uuid snapshot now (pre ++ fileName :: post)
          { disk := .current c0, u := u, trace := t0 }).disk = .current c2 ∧
        lookupKey c2.files fg.id = some m2 ∧
        m2.processingStatus = "success" ∧ m2.chunkCount = chunks.length ∧
        m2.chunkIds = ids ∧ m2.processedAt = some now) := by
  obtain ⟨hpreN, hconsN, hdisj⟩ := List.nodup_append.mp hnodup
  have hfnpre : fileName ∉ pre := fun hmem => hdisj hmem (List.mem_cons_self _ _)
  have hfnpost : fileName ∉ post := (List.nodup_cons.mp hconsN).1
  have hpostN : post.Nodup := (List.nodup_cons.mp hconsN).2
  have hfold : ingestFiles col uuid snapshot now (pre ++ fileName :: post)
      { disk := .current c0, u := u, trace := t0 } =
      ingestFiles col uuid snapshot now post
        (processFile col uuid snapshot now
          (ingestFiles col uuid snapshot now pre { disk := .current c0, u := u, trace := t0 })
          fileName) := by
    unfold ingestFiles
    rw [List.foldl_append, List.foldl_cons]
  constructor
  · have hkne : ∀ g, g ≠ fileName → ∀ fg,
        (snapshot.files.map Prod.snd).find? (fun f => f.name == g) = some fg →
        fg.id ≠ fm.id := by
      intro g hg fg hfg
      exact distinct_records snapshot hkeyid hkeys g fileName fg fm hfg hfind hg
    obtain ⟨c1, hd1, hf1⟩ := ingest_fold_frame col uuid snapshot now pre
      { disk := .current c0, u := u, trace := t0 } c0 fm.id rfl
      (fun g hg fg hfg => hkne g (fun hgf => hfnpre (hgf ▸ hg)) fg hfg)
    have hm1 : lookupKey c1.files fm.id = some m := by rw [hf1]; exact hm
    obtain ⟨c2, m2, hd2, hl2, hst, hem, hpa⟩ := processFile_err col uuid snapshot now
      (ingestFiles col uuid snapshot now pre { disk := .current c0, u := u, trace := t0 })
      fileName fm c1 m e hd1 hfind hm1 herr
    obtain ⟨c3, hd3, hf3⟩ := ingest_fold_frame col uuid snapshot now post
      (processFile col uuid snapshot now
        (ingestFiles col uuid snapshot now pre { disk := .current c0, u := u, trace := t0 })
        fileName) c2 fm.id hd2
      (fun g hg fg hfg => hkne g (fun hgf => hfnpost (hgf ▸ hg)) fg hfg)
    rw [hfold]
    refine ⟨c3, m2, hd3, ?_, hst, hem, hpa⟩
    rw [hf3]
    exact hl2
  · intro g hg fg mg chunks ids hfg hmg hok
    have hgfn : g ≠ fileName := fun hgf => hfnpost (hgf ▸ hg)
    obtain ⟨q1, q2, hsplit⟩ := List.append_of_mem hg
    have hq : (q1 ++ g :: q2).Nodup := hsplit ▸ hpostN
    obtain ⟨hq1N, hgq2N, hqdisj⟩ := List.nodup_append.mp hq
    have hgq1 : g ∉ q1 := fun hmem => hqdisj hmem (List.mem_cons_self _ _)
    have hgq2 : g ∉ q2 := (List.nodup_cons.mp hgq2N).1
    have hknegg : ∀ gx, gx ≠ g → ∀ fx,
        (snapshot.files.map Prod.snd).find? (fun f => f.name == gx) = some fx →
        fx.id ≠ fg.id := by
      intro gx hgx fx hfx
      exact distinct_records snapshot hkeyid hkeys gx g fx fg hfx hfg hgx
    have hgpre : g ∉ pre := fun hmem => hdisj hmem (List.mem_cons_of_mem _ hg)
    have hfold2 : ingestFiles col uuid snapshot now (pre ++ fileName :: post)
        { disk := .current c0, u := u, trace := t0 } =
        ingestFiles col uuid snapshot now q2
          (processFile col uuid snapshot now
            (ingestFiles col uuid snapshot now q1
              (processFile col uuid snapshot now
                (ingestFiles col uuid snapshot now pre
                  { disk := .current c0, u := u, trace := t0 })
                fileName))
            g) := by
      rw [hsplit]
      unfold ingestFiles
      rw [List.foldl_append, List.foldl_cons, List.foldl_append, List.foldl_cons]
    obtain ⟨c1, hd1, hf1⟩ := ingest_fold_frame col uuid snapshot now pre
      { disk := .current c0, u := u, trace := t0 } c0 fg.id rfl
      (fun gx hgx fx hfx => hknegg gx (fun hgf => hgpre (hgf ▸ hgx)) fx hfx)
    obtain ⟨c1b, hd1b, hf1b⟩ := processFile_disk col uuid snapshot now
      (ingestFiles col uuid snapshot now pre { disk := .current c0, u := u, trace := t0 })
      fileName c1 hd1
    have hf1b2 : lookupKey c1b.files fg.id = lookupKey c1.files fg.id := by
      refine hf1b fg.id ?_
      intro fm2 hfm2
      have : fm2 = fm := by
        rw [hfind] at hfm2
        exact (Option.some.inj hfm2).symm
      rw [this]
      exact distinct_records snapshot hkeyid hkeys fileName g fm fg hfind hfg
        (fun hf => hgfn hf.symm)
    obtain ⟨c1c, hd1c, hf1c⟩ := ingest_fold_frame col uuid snapshot now q1
      (processFile col uuid snapshot now
        (ingestFiles col uuid snapshot now pre { disk := .current c0, u := u, trace := t0 })
        fileName) c1b fg.id hd1b
      (fun gx hgx fx hfx => hknegg gx (fun hgf => hgq1 (hgf ▸ hgx)) fx hfx)
    have hmg2 : lookupKey c1c.files fg.id = some mg := by
      rw [hf1c, hf1b2, hf1]
      exact hmg
    obtain ⟨c2, m2, hd2, hl2, hst, hcc, hci, hpa⟩ := processFile_ok col uuid snapshot now
      (ingestFiles col uuid snapshot now q1
        (processFile col uuid snapshot now
          (ingestFiles col uuid snapshot now pre { disk := .current c0, u := u, trace := t0 })
          fileName)) g fg c1c mg chunks ids hd1c hfg hmg2 hok
    obtain ⟨c3, hd3, hf3⟩ := ingest_fold_frame col uuid snapshot now q2
      (processFile col uuid snapshot now
        (ingestFiles col uuid snapshot now q1
          (processFile col uuid snapshot now
            (ingestFiles col uuid snapshot now pre { disk := .current c0, u := u, trace := t0 })
            fileName)) g) c2 fg.id hd2
      (fun gx hgx fx hfx => hknegg gx (fun hgf => hgq2 (hgf ▸ hgx)) fx hfx)
    rw [hfold2]
    refine ⟨c3, m2, hd3, ?_, hst, hcc, hci, hpa⟩
    rw [hf3]
    exact hl2

end IngestLemmas

/-- Snapshot record for the failing file of the C9 scenario. -/
def recF : FileMetadata :=
  { id := "f1", name := "f.txt", mimeType := "text/plain", size := 1, lastModified := "t0",
    sourceLocation := "manual-upload", processingStatus := "pending",
    chunkCount := 0, chunkIds := [] }

/-- Snapshot record for the succeeding file of the C9 scenario. -/
def recG : FileMetadata :=
  { id := "g1", name := "g.txt", mimeType := "text/plain", size := 1, lastModified := "t0",
    sourceLocation := "manual-upload", processingStatus := "pending",
    chunkCount := 0, chunkIds := [] }

/-- Snapshot catalog holding `recF` and `recG`. -/
def ingCat : FileCatalog := { lastUpdated := "t0", files := [("f1", recF), ("g1", recG)] }

/-- Collaborators whose loader throws for `f.txt` only. -/
def failCollab : IngestCollab where
  storeDelete := fun _ => .ok ()
  loadDocs := fun n => if n == "f.txt" then .error "boom" else .ok ["doc-" ++ n]
  splitDocs := fun ds => .ok ds
  addDocs := fun cs => .ok (cs.map (fun c => "v-" ++ c))

/-- C9 witness: the theorem applied to a batch where `f.txt` throws during
loading and `g.txt` follows it. -/
theorem c9_error_isolation_witness :
    (∃ c2 m2, (ingestFiles failCollab demoUuid ingCat "t1"
        (([] : List String) ++ "f.txt" :: ["g.txt"])
        { disk := .current ingCat, u := 0, trace := [] }).disk = .current c2 ∧
      lookupKey c2.files recF.id = some m2 ∧
      m2.processingStatus = "error" ∧ m2.errorMessage = some "boom" ∧
      m2.processedAt = some "t1") ∧
    (∃ c2 m2, (ingestFiles failCollab demoUuid ingCat "t1"
        (([] : List String) ++ "f.txt" :: ["g.txt"])
        { disk := .current ingCat, u := 0, trace := [] }).disk = .current c2 ∧
      lookupKey c2.files recG.id = some m2 ∧
      m2.processingStatus = "success" ∧
      m2.chunkCount = (["doc-g.txt"] : List String).length ∧
      m2.chunkIds = ["v-doc-g.txt"] ∧ m2.processedAt = some "t1") := by
  have h := c9_error_isolation failCollab demoUuid ingCat "t1" [] ["g.txt"] "f.txt" ingCat 0 []
    recF recF "boom" (by decide) (by decide) (by decide) (by decide) (by decide) (by decide)
  exact ⟨h.1, h.2 "g.txt" (by decide) recG recG ["doc-g.txt"] ["v-doc-g.txt"]
    (by decide) (by decide) (by decide)⟩

end RagGdrive
